import Mathlib

/-!
# TM1637ADC.c : ADC voltmeter with a TM1637 four-digit display (PIC12F675)

A shallow embedding of `src/TM1637ADC.c`.

* `uint8_t`, `uint16_t` and `uint32_t` values are natural numbers; every
  operation that can leave the range of its C type is reduced `% 2^w`.
* `int8_t` loop counters are integers.
* The global array `tm1637Data` is a list of cells, index 0 leftmost.
* The two port registers the display driver touches (`TRISIO`, `GPIO`) live
  in `Port`, together with two observation logs: `wire`, the register pair
  after every port write, and `calls`, the protocol primitives entered.
-/

namespace TM1637ADC

/-! ## Constants -/

/-- `#define NOCONVERSION 0` -/
def NOCONVERSION : Nat := 0
/-- `#define STARTADCREAD 1` -/
def STARTADCREAD : Nat := 1
/-- `#define CONVERTING 2` -/
def CONVERTING : Nat := 2

/-- `const uint16_t RefmV = 5000;` -/
def RefmV : Nat := 5000

/-- `const uint8_t tm1637ByteSetData = 0x40;` -/
def tm1637ByteSetData : Nat := 0x40
/-- `const uint8_t tm1637ByteSetAddr = 0xC0;` -/
def tm1637ByteSetAddr : Nat := 0xC0
/-- `const uint8_t tm1637ByteSetOn = 0x88;` -/
def tm1637ByteSetOn : Nat := 0x88
/-- `const uint8_t tm1637ByteSetOff = 0x80;` -/
def tm1637ByteSetOff : Nat := 0x80
/-- `const uint8_t tm1637MaxDigits = 4;` -/
def tm1637MaxDigits : Nat := 4
/-- `const uint8_t tm1637RightDigit = tm1637MaxDigits - 1;` -/
def tm1637RightDigit : Nat := tm1637MaxDigits - 1
/-- `const uint8_t tm1637DisplayNumtoSeg[]`, the segment patterns of 0..9. -/
def tm1637DisplayNumtoSeg : List Nat :=
  [0x3f, 0x06, 0x5b, 0x4f, 0x66, 0x6d, 0x7d, 0x07, 0x7f, 0x6f]

/-- `#define tm1637dioTrisBit 4` -/
def tm1637dioTrisBit : Nat := 4
/-- `#define tm1637clkTrisBit 5` -/
def tm1637clkTrisBit : Nat := 5
/-- `#define TIMER1LOWBYTE 0xFF` -/
def TIMER1LOWBYTE : Nat := 0xFF
/-- `#define TIMER1HIGHBYTE 0x20` -/
def TIMER1HIGHBYTE : Nat := 0x20

/-! ## Digit pipeline -/

/-- The `while (number > 0)` loop of `getDigits`.  `ctr` is the `int8_t`
cell index, which only ever runs from 3 down to -1. -/
def getDigitsLoop (number : Nat) (ctr : Int) (tm1637Data : List Nat) : List Nat :=
  if h : number > 0 then
    if ctr ≥ 0 then
      let modulus := number % 10
      getDigitsLoop (number / 10) (ctr - 1) (tm1637Data.set ctr.toNat (modulus % 256))
    else
      getDigitsLoop 0 ctr tm1637Data
  else tm1637Data
termination_by number
decreasing_by
  · exact Nat.div_lt_self h (by decide)
  · exact h

/-- The array part of `getDigits(number)`: the `for` loop zeroes the cells
`0 .. tm1637MaxDigits-1`, then the `while` loop fills them from the right. -/
def getDigitsData (number : Nat) (tm1637Data : List Nat) : List Nat :=
  let cleared := (List.range tm1637MaxDigits).foldl (fun d ctr2 => d.set ctr2 0) tm1637Data
  getDigitsLoop number (tm1637RightDigit : Int) cleared

/-- `uint8_t getDigits(uint16_t number)`: the return value (always 1) and
the new content of `tm1637Data`. -/
def getDigits (number : Nat) (tm1637Data : List Nat) : Nat × List Nat :=
  (1, getDigitsData number tm1637Data)

/-- One pass of the `for` loop body of `roundDigits`, for cell index `digit`;
the loop state is the `uint8_t carry` and the array. -/
def roundDigitsStep (st : Nat × List Nat) (digit : Nat) : Nat × List Nat :=
  let carry := st.1
  let data := st.2
  -- if (digit == tm1637RightDigit)
  let st1 : Nat × List Nat :=
    if digit = tm1637RightDigit then
      ((if data.getD digit 0 > 5 then 1 else carry), data.set digit 0)
    else (carry, data)
  -- if (digit < tm1637RightDigit)
  if digit < tm1637RightDigit then
    let v := (st1.2.getD digit 0 + st1.1) % 256
    if v > 9 then (1, st1.2.set digit 0) else (0, st1.2.set digit v)
  else st1

/-- `void roundDigits(void)`: `digit` runs from `tm1637RightDigit` down to 0,
`carry` starts at 0. -/
def roundDigits (tm1637Data : List Nat) : List Nat :=
  ((List.range (tm1637RightDigit + 1)).reverse.foldl roundDigitsStep (0, tm1637Data)).2

/-- Decimal value of a four-cell array, index 0 most significant. -/
def cellsValue (cells : List Nat) : Nat :=
  cells.getD 0 0 * 1000 + cells.getD 1 0 * 100 + cells.getD 2 0 * 10 + cells.getD 3 0

/-- The four decimal digits of `n mod 10000`, most significant first. -/
def decimalDigits4 (n : Nat) : List Nat :=
  [n / 1000 % 10, n / 100 % 10, n / 10 % 10, n % 10]


/-! ## Port registers and the TM1637 two-wire driver -/

/-- The protocol primitives of the display driver, as entered by a caller. -/
inductive BusOp where
  | start : BusOp
  | write (b : Nat) : BusOp
  | stop : BusOp
deriving DecidableEq, Repr

/-- The port registers used by the driver and what an observer records.
`wire` holds the pair (TRISIO, GPIO) after every write to one of the two
registers, oldest first; `calls` holds the primitives entered, oldest first;
`dioIn` holds the levels the DIO line will show, when it is released, at the
coming reads of the pin (an exhausted list reads as the pulled-up level). -/
structure Port where
  TRISIO : Nat
  GPIO : Nat
  wire : List (Nat × Nat)
  calls : List BusOp
  dioIn : List Bool

/-- `reg &= ~(1<<bit)` on an 8-bit register. -/
def bitClear8 (reg bit : Nat) : Nat := reg &&& (0xFF ^^^ (1 <<< bit))

/-- `reg |= 1<<bit` on an 8-bit register. -/
def bitSet8 (reg bit : Nat) : Nat := (reg ||| (1 <<< bit)) % 256

/-- A write to the direction register. -/
def Port.setTris (p : Port) (v : Nat) : Port :=
  { p with TRISIO := v, wire := p.wire ++ [(v, p.GPIO)] }

/-- A write to the port latch register. -/
def Port.setGpio (p : Port) (v : Nat) : Port :=
  { p with GPIO := v, wire := p.wire ++ [(p.TRISIO, v)] }

/-- `TRISIO &= ~(1<<tm1637clkTrisBit); tm1637clk = 0;` -/
def Port.clkLow (p : Port) : Port :=
  let p1 := p.setTris (bitClear8 p.TRISIO tm1637clkTrisBit)
  p1.setGpio (bitClear8 p1.GPIO tm1637clkTrisBit)

/-- `TRISIO |= 1<<tm1637clkTrisBit;` -/
def Port.clkRelease (p : Port) : Port :=
  p.setTris (bitSet8 p.TRISIO tm1637clkTrisBit)

/-- `TRISIO &= ~(1<<tm1637dioTrisBit); tm1637dio = 0;` -/
def Port.dioLow (p : Port) : Port :=
  let p1 := p.setTris (bitClear8 p.TRISIO tm1637dioTrisBit)
  p1.setGpio (bitClear8 p1.GPIO tm1637dioTrisBit)

/-- `TRISIO |= 1<<tm1637dioTrisBit;` -/
def Port.dioRelease (p : Port) : Port :=
  p.setTris (bitSet8 p.TRISIO tm1637dioTrisBit)

/-- The value read from pin GP4 (`tm1637dio`): the line level while the pin
is an input, the latch while it is an output. -/
def Port.readDio (p : Port) : Bool :=
  if p.TRISIO.testBit tm1637dioTrisBit then p.dioIn.headD true
  else p.GPIO.testBit tm1637dioTrisBit

/-- `void tm1637StartCondition(void)` (the delays have no effect on the state). -/
def tm1637StartCondition (p : Port) : Port :=
  Port.dioLow { p with calls := p.calls ++ [BusOp.start] }

/-- `void tm1637StopCondition()`. -/
def tm1637StopCondition (p : Port) : Port :=
  let p := Port.dioLow { p with calls := p.calls ++ [BusOp.stop] }
  let p := p.clkRelease
  p.dioRelease

/-- One pass of the `for (i = 0; i < 8; i++)` body of `tm1637ByteWrite`;
the loop state is the `uint8_t bWrite` and the port. -/
def tm1637ByteWriteBit (st : Nat × Port) : Nat × Port :=
  let bWrite := st.1
  let p := st.2.clkLow
  let p := if (bWrite &&& 0x01) > 0 then p.dioRelease else p.dioLow
  let bWrite := (bWrite >>> 1) % 256
  (bWrite, p.clkRelease)

/-- The `for` loop of `tm1637ByteWrite`, `n` passes. -/
def tm1637ByteWriteLoop : Nat → Nat × Port → Nat × Port
  | 0, st => st
  | n + 1, st => tm1637ByteWriteLoop n (tm1637ByteWriteBit st)

/-- The part of `tm1637ByteWrite` after the bit loop ("Wait for ack"): the
clock is driven low, the data pin released, the clock released, the pin read
into `tm1637ack`, the data pin driven low `if (!tm1637ack)`, and the clock
driven low again. -/
def tm1637ByteWriteAck (p : Port) : Port :=
  let p := p.clkLow
  let p := p.dioRelease
  let p := p.setGpio (bitClear8 p.GPIO tm1637dioTrisBit)
  let p := p.clkRelease
  let tm1637ack := p.readDio
  let p := { p with dioIn := p.dioIn.tail }
  let p := if !tm1637ack then p.dioLow else p
  p.clkLow

/-- `uint8_t tm1637ByteWrite(uint8_t bWrite)`: the return value and the port. -/
def tm1637ByteWrite (bWrite : Nat) (p : Port) : Nat × Port :=
  let bWrite := bWrite % 256
  let p := { p with calls := p.calls ++ [BusOp.write bWrite] }
  let p := (tm1637ByteWriteLoop 8 (bWrite, p)).2
  (1, tm1637ByteWriteAck p)

/-! ## Program state -/

/-- The special function registers and global variables of the program;
`port` holds TRISIO and GPIO. -/
structure Pic where
  port : Port
  ADCON0 : Nat
  ADRESH : Nat
  ADRESL : Nat
  PIR1 : Nat
  TMR1H : Nat
  TMR1L : Nat
  timer1Flag : Nat
  ADCreadcounter : Nat
  ADCreadStatus : Nat
  LEDcounter : Nat
  LEDonTime : Nat
  tm1637Brightness : Nat
  tm1637Data : List Nat
  decimalPointPos : Nat
  zeroBlanking : Nat
  numDisplayedDigits : Nat

/-- The body of the `for (ctr = 0; ctr < tm1637MaxDigits; ctr ++)` loop of
`tm1637UpdateDisplay` up to the byte write: the values of `tm1637DigitSegs`
and `stopBlanking` it reaches from the incoming `stopBlanking`.  A cell above
9 indexes past the table, which C leaves undefined: it reads as 0 here. -/
def tm1637DigitSegs (s : Pic) (stopBlanking ctr : Nat) : Nat × Nat :=
  let cell := s.tm1637Data.getD ctr 0
  let lookup := tm1637DisplayNumtoSeg.getD cell 0
  -- (tm1637DigitSegs, stopBlanking) after the if / else
  let r : Nat × Nat :=
    if stopBlanking = 0 ∧ cell = 0 then
      ((if ctr < tm1637RightDigit then 0 else lookup), stopBlanking)
    else
      ((if ctr = s.decimalPointPos then (lookup ||| 0x80) % 256 else lookup), 1)
  -- if (ctr>(numDisplayedDigits-1)), compared as int
  if (ctr : Int) > (s.numDisplayedDigits : Int) - 1 then (0, r.2) else r

/-- One pass of the `for` loop of `tm1637UpdateDisplay`; the loop state is
`stopBlanking` and the port. -/
def tm1637UpdateDisplayStep (s : Pic) (st : Nat × Port) (ctr : Nat) : Nat × Port :=
  let r := tm1637DigitSegs s st.1 ctr
  (r.2, (tm1637ByteWrite r.1 st.2).2)

/-- `void tm1637UpdateDisplay()`. -/
def tm1637UpdateDisplay (s : Pic) : Pic :=
  let stopBlanking : Nat := if s.zeroBlanking = 0 then 1 else 0
  let p := tm1637StartCondition s.port
  let p := (tm1637ByteWrite tm1637ByteSetData p).2
  let p := tm1637StopCondition p
  let p := tm1637StartCondition p
  let p := (tm1637ByteWrite tm1637ByteSetAddr p).2
  let p := ((List.range tm1637MaxDigits).foldl (tm1637UpdateDisplayStep s) (stopBlanking, p)).2
  let p := tm1637StopCondition p
  let p := tm1637StartCondition p
  let p := (tm1637ByteWrite (tm1637ByteSetOn + s.tm1637Brightness) p).2
  let p := tm1637StopCondition p
  { s with port := p }

/-- `uint16_t readADC(void)`. -/
def readADC (s : Pic) : Nat :=
  let ADCval := s.ADRESL % 65536
  let ADCval := ADCval ||| ((s.ADRESH <<< 8) % 65536)
  let ADCmV := (RefmV * ADCval) % 2 ^ 32
  let ADCmVfractional := ADCmV &&& 0x000003FF
  let ADCmV := ADCmV >>> 10
  let ADCmV := if ADCmVfractional > 0x200 then (ADCmV + 1) % 2 ^ 32 else ADCmV
  ADCmV % 65536

/-- `void LEDflash(void)`; the LED is on pin GP2. -/
def LEDflash (s : Pic) : Pic :=
  if s.LEDcounter ≤ s.LEDonTime then
    { s with port := s.port.setGpio (bitSet8 s.port.GPIO 2) }
  else
    { s with port := s.port.setGpio (bitClear8 s.port.GPIO 2), LEDonTime := 0 }

/-- `void ISR(void)`. -/
def ISR (s : Pic) : Pic :=
  if s.PIR1 &&& 0x01 ≠ 0 then
    { s with PIR1 := s.PIR1 &&& 0xFE, TMR1H := TIMER1HIGHBYTE, TMR1L := TIMER1LOWBYTE,
             timer1Flag := 1 }
  else s

/-- The body of `case CONVERTING:` in `main`. -/
def caseConverting (s : Pic) : Pic :=
  if s.ADCON0 &&& 0x20 = 0 then
    let displayedInt := readADC s
    let s := { s with tm1637Data := (getDigits displayedInt s.tm1637Data).2 }
    let s := { s with tm1637Data := roundDigits s.tm1637Data }
    let s := tm1637UpdateDisplay s
    { s with ADCreadStatus := NOCONVERSION }
  else s

/-- The body of `case STARTADCREAD:` in `main`. -/
def caseStartADCRead (s : Pic) : Pic :=
  { s with ADCON0 := (s.ADCON0 ||| 0x02) % 256, ADCreadStatus := CONVERTING,
           LEDcounter := 0, LEDonTime := 1 }

/-- One pass of the body of `while(1)` in `main`. -/
def mainLoopPass (s : Pic) : Pic :=
  let s :=
    if s.timer1Flag ≠ 0 then
      { s with ADCreadcounter := (s.ADCreadcounter + 1) % 256,
               LEDcounter := (s.LEDcounter + 1) % 256, timer1Flag := 0 }
    else s
  let s :=
    if s.ADCreadcounter ≥ 10 then
      { s with ADCreadcounter := 0, ADCreadStatus := STARTADCREAD }
    else s
  let s :=
    if s.ADCreadStatus = NOCONVERSION then s
    else if s.ADCreadStatus = STARTADCREAD then caseStartADCRead s
    else if s.ADCreadStatus = CONVERTING then caseConverting s
    else s
  if s.LEDonTime ≠ 0 then LEDflash s else s

/-! ## Observations -/

/-- Level of the clock line for a register pair (TRISIO, GPIO): released
(pulled high) when the direction bit is set, the latch otherwise. -/
def clkLine (w : Nat × Nat) : Bool :=
  w.1.testBit tm1637clkTrisBit || w.2.testBit tm1637clkTrisBit

/-- What the controller does to a line: leave it to the pull-up (and to the
other device), or drive it low or high. -/
inductive Drive where
  | released : Drive
  | low : Drive
  | high : Drive
deriving DecidableEq, Repr

/-- What the controller does to the data line for a register pair: released
when the direction bit is set, driven to the latch level otherwise. -/
def dioLine (w : Nat × Nat) : Drive :=
  if w.1.testBit tm1637dioTrisBit then Drive.released
  else if w.2.testBit tm1637dioTrisBit then Drive.high else Drive.low

/-- The data line for a transmitted bit: released for 1, driven low for 0. -/
def bitDrive (bit : Bool) : Drive := if bit then Drive.released else Drive.low

/-- The state of the data line at every rising edge of the clock line in a
run of register pairs that follows the pair `prev`. -/
def clockEdges : Nat × Nat → List (Nat × Nat) → List Drive
  | _, [] => []
  | prev, cur :: rest =>
    if !clkLine prev && clkLine cur then dioLine cur :: clockEdges cur rest
    else clockEdges cur rest

/-- The register pair of a port. -/
def Port.regs (p : Port) : Nat × Nat := (p.TRISIO, p.GPIO)

/-- The last pair of a run that follows `prev`. -/
def lastPair : Nat × Nat → List (Nat × Nat) → Nat × Nat
  | prev, [] => prev
  | _, cur :: rest => lastPair cur rest

/-- Port `q` is reached from `p` by port writes that recorded `seg`. -/
def Port.Extends (p q : Port) (seg : List (Nat × Nat)) : Prop :=
  q.wire = p.wire ++ seg ∧ lastPair p.regs seg = q.regs

/-- The register pairs that `q` recorded after `p`. -/
def wireSince (p q : Port) : List (Nat × Nat) := q.wire.drop p.wire.length

/-- The primitives that `q` recorded after `p`. -/
def callsSince (p q : Port) : List BusOp := q.calls.drop p.calls.length

/-- The bytes written in a run of primitives, in order. -/
def busWrites : List BusOp → List Nat
  | [] => []
  | BusOp.write b :: rest => b :: busWrites rest
  | _ :: rest => busWrites rest

/-- The four segment data bytes of one `tm1637UpdateDisplay`: of the seven
bytes it writes, those after the data command and the address command. -/
def segmentBytes (s : Pic) : List Nat :=
  ((busWrites (callsSince s.port (tm1637UpdateDisplay s).port)).drop 2).take 4

/-- The four segment data bytes that the completion step of the
acquisition task (`case CONVERTING:` with the conversion reported complete)
writes to the display. -/
def completionSegmentBytes (s : Pic) : List Nat :=
  ((busWrites (callsSince s.port (caseConverting s).port)).drop 2).take 4

/-- The segment pattern of a digit cell. -/
def segOf (cell : Nat) : Nat := tm1637DisplayNumtoSeg.getD cell 0

/-- The globals with the initial values of their declarations, and the
modelled registers with the values `initialise()` writes to them
(TRISIO = 0x30 | 0x01, GPIO = 0, ADCON0 = 0x81, the Timer1 preload); the ADC
result registers hold 0 and nothing has been recorded on the port. -/
def declaredState : Pic :=
  { port := { TRISIO := 0x31, GPIO := 0, wire := [], calls := [], dioIn := [] },
    ADCON0 := 0x81, ADRESH := 0, ADRESL := 0, PIR1 := 0,
    TMR1H := TIMER1HIGHBYTE, TMR1L := TIMER1LOWBYTE,
    timer1Flag := 0, ADCreadcounter := 0, ADCreadStatus := 0, LEDcounter := 0, LEDonTime := 0,
    tm1637Brightness := 5, tm1637Data := [0, 0, 0, 0],
    decimalPointPos := 99, zeroBlanking := 0, numDisplayedDigits := 3 }

/-- The patterns of the four decimal digits of `v`, most significant first,
with bit 7 (the decimal point) set on the first. -/
def fourDigitPatterns (v : Nat) : List Nat :=
  [segOf (v / 1000 % 10) ||| 0x80, segOf (v / 100 % 10), segOf (v / 10 % 10), segOf (v % 10)]

/-- A state in which a conversion has completed with the raw code `c` in
ADRESH:ADRESL, set up to show all four digits as n.nnn: blanking off, decimal
point on cell 0, `numDisplayedDigits = 4`. -/
def fourDigitState (c : Nat) : Pic :=
  { declaredState with ADRESH := c / 256, ADRESL := c % 256, ADCreadStatus := CONVERTING,
                       decimalPointPos := 0, numDisplayedDigits := 4 }

/-- A state with leading-zero blanking on, all four digits shown, the given
cells and the decimal point on cell `p`. -/
def blankingState (cells : List Nat) (p : Nat) : Pic :=
  { declaredState with tm1637Data := cells, zeroBlanking := 1, decimalPointPos := p,
                       numDisplayedDigits := 4 }

/-! ## Stages of a loop pass, and runs of passes -/

/-- First statement of the loop body: `if (timer1Flag) { ... }`. -/
def passTick (s : Pic) : Pic :=
  if s.timer1Flag ≠ 0 then
    { s with ADCreadcounter := (s.ADCreadcounter + 1) % 256,
             LEDcounter := (s.LEDcounter + 1) % 256, timer1Flag := 0 }
  else s

/-- Second statement of the loop body: `if (ADCreadcounter >= 10) { ... }`. -/
def passInterval (s : Pic) : Pic :=
  if s.ADCreadcounter ≥ 10 then
    { s with ADCreadcounter := 0, ADCreadStatus := STARTADCREAD }
  else s

/-- Third statement of the loop body: `switch (ADCreadStatus) { ... }`. -/
def passSwitch (s : Pic) : Pic :=
  if s.ADCreadStatus = NOCONVERSION then s
  else if s.ADCreadStatus = STARTADCREAD then caseStartADCRead s
  else if s.ADCreadStatus = CONVERTING then caseConverting s
  else s

/-- Last statement of the loop body: `if (LEDonTime) LEDflash();`. -/
def passLed (s : Pic) : Pic :=
  if s.LEDonTime ≠ 0 then LEDflash s else s

/-- The pass that starts in `s` runs `case STARTADCREAD:`, the only place
that issues the start-conversion command `ADCON0 |= 0x02`. -/
abbrev startsConversion (s : Pic) : Prop :=
  (passInterval (passTick s)).ADCreadStatus = STARTADCREAD

/-- What the hardware did since the previous pass: whether Timer1 overflowed
and the interrupt was served, and the values the ADC registers now show. -/
structure Stimulus where
  tick : Bool
  ADCON0 : Nat
  ADRESH : Nat
  ADRESL : Nat

/-- The state a pass starts in: the ADC registers as the hardware shows
them, and `ISR` served once if Timer1 overflowed (PIR1 bit 0 set). -/
def arrive (x : Stimulus) (s : Pic) : Pic :=
  let s := { s with ADCON0 := x.ADCON0, ADRESH := x.ADRESH, ADRESL := x.ADRESL }
  if x.tick then ISR { s with PIR1 := s.PIR1 ||| 0x01 } else s

/-- The loop of `main` run for one pass per stimulus. -/
def runPasses (s : Pic) : List Stimulus → Pic
  | [] => s
  | x :: xs => runPasses (mainLoopPass (arrive x s)) xs

/-- Number of tick flags delivered by a run of stimuli. -/
def tickCount (xs : List Stimulus) : Nat := (xs.filter (fun x => x.tick)).length

/-! ## The loop of `getDigits`, pass by pass -/

/-- The body of `while (number > 0)` in `getDigits` on the loop state
(number, ctr, tm1637Data). -/
def getDigitsBody (st : Nat × Int × List Nat) : Nat × Int × List Nat :=
  if st.2.1 ≥ 0 then
    (st.1 / 10, st.2.1 - 1, st.2.2.set st.2.1.toNat ((st.1 % 10) % 256))
  else
    (0, st.2.1, st.2.2)

/-- At most `n` passes of the `while` loop: it stops when `number > 0` fails. -/
def getDigitsRun : Nat → Nat × Int × List Nat → Nat × Int × List Nat
  | 0, st => st
  | n + 1, st => if st.1 > 0 then getDigitsRun n (getDigitsBody st) else st

/-- The indices `ctr` of the writes `tm1637Data[ctr] = ...` made by at most
`n` passes of the `while` loop, in order. -/
def getDigitsWrites : Nat → Nat × Int × List Nat → List Int
  | 0, _ => []
  | n + 1, st =>
    if st.1 > 0 then
      (if st.2.1 ≥ 0 then [st.2.1] else []) ++ getDigitsWrites n (getDigitsBody st)
    else []

/-- The indices used by the lookups `tm1637DisplayNumtoSeg[tm1637Data[ctr]]`
of `tm1637UpdateDisplay`, for ctr = 0 .. tm1637MaxDigits-1. -/
def lookupIndices (s : Pic) : List Nat :=
  (List.range tm1637MaxDigits).map (fun ctr => s.tm1637Data.getD ctr 0)

/-- The port at the moment `tm1637ByteWrite` reads the pin into `tm1637ack`:
clock low, data released, clock released. -/
def tm1637AckSample (p : Port) : Port :=
  let p := p.clkLow
  let p := p.dioRelease
  let p := p.setGpio (bitClear8 p.GPIO tm1637dioTrisBit)
  p.clkRelease

/-- The port at the pin read of `tm1637ByteWrite bWrite`, after the bit loop. -/
def tm1637ByteWriteSample (bWrite : Nat) (p : Port) : Port :=
  tm1637AckSample
    (tm1637ByteWriteLoop 8 (bWrite % 256,
      { p with calls := p.calls ++ [BusOp.write (bWrite % 256)] })).2

/-- The levels of a register pair: the clock line, and what the controller
does to the data line. -/
def lineLevels (w : Nat × Nat) : Bool × Drive := (clkLine w, dioLine w)

/-- The port as `initialise()` leaves it, with the DIO line showing `level`
at the next read of the pin. -/
def portReading (level : Bool) : Port :=
  { declaredState.port with dioIn := [level] }

/-- A state in which a conversion is under way: `ADCreadStatus = CONVERTING`
with the given ADCON0, interval counter and tick flag; the flash is over
(`LEDcounter = 7`, `LEDonTime = 0`). -/
def convertingState (adcon0 counter flag : Nat) : Pic :=
  { declaredState with ADCON0 := adcon0, ADCreadStatus := CONVERTING,
                       ADCreadcounter := counter, timer1Flag := flag, LEDcounter := 7 }

/-- The configuration `main` runs with (blanking off, decimal point on cell
0, `numDisplayedDigits = 3`), at a completed conversion with the raw code
`c` in ADRESH:ADRESL. -/
def shippedState (c : Nat) : Pic :=
  { declaredState with ADRESH := c / 256, ADRESL := c % 256, ADCreadStatus := CONVERTING,
                       decimalPointPos := 0 }

/-- A stimulus in which the completion poll `ADCON0 & 0x20` keeps reporting
the conversion not complete (ADCON0 = 0xA1). -/
def stuck (tick : Bool) : Stimulus :=
  { tick := tick, ADCON0 := 0xA1, ADRESH := 0, ADRESL := 0 }

/-- A stimulus with the ADC registers as `initialise()` leaves them. -/
def quiet (tick : Bool) : Stimulus :=
  { tick := tick, ADCON0 := 0x81, ADRESH := 0, ADRESL := 0 }

/-! ## Lemmas -/

theorem getDigitsLoop_zero (ctr : Int) (d : List Nat) : getDigitsLoop 0 ctr d = d := by
  rw [getDigitsLoop]; simp

theorem getDigitsLoop_pos (n : Nat) (ctr : Int) (d : List Nat) (hn : 0 < n) (hc : 0 ≤ ctr) :
    getDigitsLoop n ctr d
      = getDigitsLoop (n / 10) (ctr - 1) (d.set ctr.toNat (n % 10 % 256)) := by
  rw [getDigitsLoop]; simp [hn, hc]

theorem getDigitsLoop_neg (n : Nat) (ctr : Int) (d : List Nat) (hc : ctr < 0) :
    getDigitsLoop n ctr d = d := by
  rw [getDigitsLoop]
  by_cases hn : 0 < n
  · simp [hn, Int.not_le.mpr hc, getDigitsLoop_zero]
  · simp [hn]

/-- Closed form of `getDigits`: the cells are the four low decimal digits. -/
theorem getDigitsData_eq (v a b c d : Nat) :
    getDigitsData v [a, b, c, d] = decimalDigits4 v := by
  have hr : List.range tm1637MaxDigits = [0, 1, 2, 3] := by decide
  have hR : (tm1637RightDigit : Int) = 3 := by decide
  simp only [getDigitsData, hr, hR, List.foldl, List.set, decimalDigits4]
  by_cases h0 : 0 < v
  · rw [getDigitsLoop_pos _ _ _ h0 (by decide)]
    by_cases h1 : 0 < v / 10
    · rw [getDigitsLoop_pos _ _ _ h1 (by decide)]
      by_cases h2 : 0 < v / 10 / 10
      · rw [getDigitsLoop_pos _ _ _ h2 (by decide)]
        by_cases h3 : 0 < v / 10 / 10 / 10
        · rw [getDigitsLoop_pos _ _ _ h3 (by decide)]
          rw [getDigitsLoop_neg _ _ _ (by decide)]
          simp [List.set]
          omega
        · have h3z : v / 10 / 10 / 10 = 0 := by omega
          rw [h3z, getDigitsLoop_zero]
          simp [List.set]
          omega
      · have h2z : v / 10 / 10 = 0 := by omega
        rw [h2z, getDigitsLoop_zero]
        simp [List.set]
        omega
    · have h1z : v / 10 = 0 := by omega
      rw [h1z, getDigitsLoop_zero]
      simp [List.set]
      omega
  · have h0z : v = 0 := by omega
    subst h0z
    rw [getDigitsLoop_zero]

theorem decimalDigits4_mod (v : Nat) : decimalDigits4 (v % 10000) = decimalDigits4 v := by
  simp only [decimalDigits4]
  congr 1
  · omega
  · congr 1
    · omega
    · congr 1
      · omega
      · congr 1
        omega

theorem roundDigits_range : (List.range (tm1637RightDigit + 1)).reverse = [3, 2, 1, 0] := by
  decide

/-- Without a carry `roundDigits` only clears the rightmost cell. -/
theorem roundDigits_keep (d0 d1 d2 d3 : Nat) (h0 : d0 ≤ 9) (h1 : d1 ≤ 9) (h2 : d2 ≤ 9)
    (h3 : d3 ≤ 5) : roundDigits [d0, d1, d2, d3] = [d0, d1, d2, 0] := by
  have e0 : d0 % 256 = d0 := Nat.mod_eq_of_lt (by omega)
  have e1 : d1 % 256 = d1 := Nat.mod_eq_of_lt (by omega)
  have e2 : d2 % 256 = d2 := Nat.mod_eq_of_lt (by omega)
  have g0 : ¬ 9 < d0 := by omega
  have g1 : ¬ 9 < d1 := by omega
  have g2 : ¬ 9 < d2 := by omega
  have g3 : ¬ 5 < d3 := by omega
  simp only [roundDigits, roundDigits_range, List.foldl]
  simp [roundDigitsStep, tm1637RightDigit, tm1637MaxDigits, e0, e1, e2, g0, g1, g2, g3]

/-- With a carry `roundDigits` adds one to the three leading digits, modulo 1000. -/
theorem roundDigits_carry (d0 d1 d2 d3 : Nat) (h0 : d0 ≤ 9) (h1 : d1 ≤ 9) (h2 : d2 ≤ 9)
    (h3 : d3 ≤ 9) (h5 : 5 < d3) :
    roundDigits [d0, d1, d2, d3]
      = decimalDigits4 ((10 * ((d0 * 1000 + d1 * 100 + d2 * 10 + d3) / 10 + 1)) % 10000) := by
  have e0 : (d0 + 1) % 256 = d0 + 1 := Nat.mod_eq_of_lt (by omega)
  have e1 : (d1 + 1) % 256 = d1 + 1 := Nat.mod_eq_of_lt (by omega)
  have e2 : (d2 + 1) % 256 = d2 + 1 := Nat.mod_eq_of_lt (by omega)
  have e0' : d0 % 256 = d0 := Nat.mod_eq_of_lt (by omega)
  have e1' : d1 % 256 = d1 := Nat.mod_eq_of_lt (by omega)
  simp only [roundDigits, roundDigits_range, List.foldl, decimalDigits4]
  simp [roundDigitsStep, tm1637RightDigit, tm1637MaxDigits, h5, e2]
  by_cases c2 : 9 < d2 + 1
  · simp [c2, e1]
    by_cases c1 : 9 < d1 + 1
    · simp [c1, e0]
      by_cases c0 : 9 < d0 + 1
      · simp [c0]; omega
      · simp [c0]; omega
    · simp [c1, e0']
      have : ¬ 9 < d0 := by omega
      simp [this]; omega
  · simp [c2, e1']
    have : ¬ 9 < d1 := by omega
    simp [this, e0']
    have : ¬ 9 < d0 := by omega
    simp [this]; omega

/-! ## Digit extraction (claims C1, C2) -/

/-- C1. For every v in [0, 9999] and every prior content [a, b, c, d] of
`tm1637Data`, `getDigits v` leaves four cells d0..d3 (index 0 leftmost) with
d0*1000 + d1*100 + d2*10 + d3 = v. -/
theorem getDigits_value (v a b c d : Nat) (hv : v ≤ 9999) :
    ∃ d0 d1 d2 d3 : Nat, (getDigits v [a, b, c, d]).2 = [d0, d1, d2, d3] ∧
      d0 * 1000 + d1 * 100 + d2 * 10 + d3 = v := by
  refine ⟨v / 1000 % 10, v / 100 % 10, v / 10 % 10, v % 10, ?_, by omega⟩
  simp only [getDigits, getDigitsData_eq, decimalDigits4]

theorem getDigits_value_witness :
    2500 ≤ 9999 ∧ ∃ d0 d1 d2 d3 : Nat, (getDigits 2500 [7, 8, 9, 255]).2 = [d0, d1, d2, d3] ∧
      d0 * 1000 + d1 * 100 + d2 * 10 + d3 = 2500 :=
  ⟨by decide, getDigits_value 2500 7 8 9 255 (by decide)⟩

/-- C2. Truncation law: for every 16-bit v with 10000 ≤ v ≤ 65535 and all
prior array contents, `getDigits v` leaves the same four cells as
`getDigits (v mod 10000)`, namely the four least-significant decimal digits
of v, and both calls return 1. -/
theorem getDigits_truncation (v a b c d a' b' c' d' : Nat) (hlo : 10000 ≤ v)
    (hhi : v ≤ 65535) :
    (getDigits v [a, b, c, d]).2 = (getDigits (v % 10000) [a', b', c', d']).2 ∧
      (getDigits v [a, b, c, d]).2 = [v / 1000 % 10, v / 100 % 10, v / 10 % 10, v % 10] ∧
      (getDigits v [a, b, c, d]).1 = 1 ∧ (getDigits (v % 10000) [a', b', c', d']).1 = 1 := by
  refine ⟨?_, ?_, rfl, rfl⟩
  · simp only [getDigits, getDigitsData_eq, decimalDigits4_mod]
  · simp only [getDigits, getDigitsData_eq, decimalDigits4]

theorem getDigits_truncation_witness :
    10000 ≤ 65535 ∧ 65535 ≤ 65535 ∧
      (getDigits 65535 [1, 2, 3, 4]).2 = (getDigits (65535 % 10000) [0, 0, 0, 0]).2 ∧
      (getDigits 65535 [1, 2, 3, 4]).2
        = [65535 / 1000 % 10, 65535 / 100 % 10, 65535 / 10 % 10, 65535 % 10] ∧
      (getDigits 65535 [1, 2, 3, 4]).1 = 1 ∧ (getDigits (65535 % 10000) [0, 0, 0, 0]).1 = 1 :=
  ⟨by decide, by decide, getDigits_truncation 65535 1 2 3 4 0 0 0 0 (by decide) (by decide)⟩

/-! ## Rounding (claims C3, C4) -/

/-- C3. For every cell array [d0, d1, d2, d3] with all cells in [0, 9] and
the rightmost cell in [0, 5], `roundDigits` leaves d0, d1, d2 unchanged and
sets the rightmost cell to 0. -/
theorem roundDigits_no_carry (d0 d1 d2 d3 : Nat) (h0 : d0 ≤ 9) (h1 : d1 ≤ 9) (h2 : d2 ≤ 9)
    (h3 : d3 ≤ 5) : roundDigits [d0, d1, d2, d3] = [d0, d1, d2, 0] :=
  roundDigits_keep d0 d1 d2 d3 h0 h1 h2 h3

theorem roundDigits_no_carry_witness :
    (2 ≤ 9 ∧ 9 ≤ 9 ∧ 9 ≤ 9 ∧ 5 ≤ 5) ∧ roundDigits [2, 9, 9, 5] = [2, 9, 9, 0] :=
  ⟨by decide, roundDigits_no_carry 2 9 9 5 (by decide) (by decide) (by decide) (by decide)⟩

/-- C4. Carry propagation: for every cell array with all cells in [0, 9],
rightmost cell above 5 and decimal value V, `roundDigits` leaves the four
decimal digits of (10 * (V div 10 + 1)) mod 10000; a carry out of cell 0 is
dropped. -/
theorem roundDigits_carry_propagation (d0 d1 d2 d3 : Nat) (h0 : d0 ≤ 9) (h1 : d1 ≤ 9)
    (h2 : d2 ≤ 9) (h3 : d3 ≤ 9) (h5 : 5 < d3) :
    roundDigits [d0, d1, d2, d3]
      = decimalDigits4 ((10 * ((d0 * 1000 + d1 * 100 + d2 * 10 + d3) / 10 + 1)) % 10000) :=
  roundDigits_carry d0 d1 d2 d3 h0 h1 h2 h3 h5

theorem roundDigits_carry_propagation_witness :
    roundDigits [1, 2, 9, 6] = [1, 3, 0, 0] ∧ roundDigits [9, 9, 9, 6] = [0, 0, 0, 0] :=
  ⟨(roundDigits_carry_propagation 1 2 9 6 (by decide) (by decide) (by decide) (by decide)
      (by decide)).trans (by decide),
   (roundDigits_carry_propagation 9 9 9 6 (by decide) (by decide) (by decide) (by decide)
      (by decide)).trans (by decide)⟩

/-! ## Conversion to millivolts (claim C6) -/

theorem adcval_eq (c : Nat) (hc : c ≤ 1023) :
    ((c % 256) % 65536 ||| ((c / 256) <<< 8) % 65536) = c := by
  have h1 : (c % 256) % 65536 = c % 256 := Nat.mod_eq_of_lt (by omega)
  have h2 : ((c / 256) <<< 8) % 65536 = 2 ^ 8 * (c / 256) := by
    rw [Nat.shiftLeft_eq, Nat.mul_comm]
    exact Nat.mod_eq_of_lt (by omega)
  have h3 : c % 256 < 2 ^ 8 := by omega
  rw [h1, h2, Nat.lor_comm, ← Nat.mul_add_lt_is_or h3]
  omega

/-- Closed form of `readADC` on a 10-bit code held in ADRESH:ADRESL. -/
theorem readADC_eq (s : Pic) (c : Nat) (hc : c ≤ 1023) (hH : s.ADRESH = c / 256)
    (hL : s.ADRESL = c % 256) :
    readADC s = 5000 * c / 1024 + (if 5000 * c % 1024 > 512 then 1 else 0) := by
  have hm : ∀ x : Nat, x &&& 0x000003FF = x % 1024 := fun x =>
    Nat.and_pow_two_sub_one_eq_mod x 10
  have hs : ∀ x : Nat, x >>> 10 = x / 1024 := fun x => Nat.shiftRight_eq_div_pow x 10
  have hp : (5000 * c) % 2 ^ 32 = 5000 * c := Nat.mod_eq_of_lt (by omega)
  simp only [readADC, hH, hL, adcval_eq c hc, RefmV, hm, hs, hp]
  split_ifs <;> omega

/-- C6. For every raw code c in [0, 1023] held in ADRESH:ADRESL, `readADC`
returns r = floor(5000*c/1024) + (1 if 5000*c mod 1024 > 512 else 0); r is a
nearest integer to 5000*c/1024 (|1024*r - 5000*c| ≤ 512), it is rounded up
exactly when the remainder exceeds 512, it lies in [0, 5000], and neither the
32-bit product nor the 16-bit result overflows. -/
theorem readADC_millivolts (s : Pic) (c : Nat) (hc : c ≤ 1023) (hH : s.ADRESH = c / 256)
    (hL : s.ADRESL = c % 256) :
    readADC s = 5000 * c / 1024 + (if 5000 * c % 1024 > 512 then 1 else 0) ∧
      |1024 * (readADC s : Int) - 5000 * (c : Int)| ≤ 512 ∧
      (readADC s = 5000 * c / 1024 + 1 ↔ 5000 * c % 1024 > 512) ∧
      readADC s ≤ 5000 ∧ RefmV * c < 2 ^ 32 ∧ readADC s < 2 ^ 16 := by
  have h := readADC_eq s c hc hH hL
  refine ⟨h, ?_, ?_, ?_, ?_, ?_⟩
  · have h1 : 1024 * readADC s ≤ 5000 * c + 512 := by
      rw [h]
      split_ifs <;> omega
    have h2 : 5000 * c ≤ 1024 * readADC s + 512 := by
      rw [h]
      split_ifs <;> omega
    rw [abs_le]
    constructor <;> omega
  · rw [h]
    split_ifs <;> omega
  · rw [h]
    split_ifs <;> omega
  · simp only [RefmV]
    omega
  · rw [h]
    split_ifs <;> omega

theorem readADC_millivolts_witness :
    512 ≤ 1023 ∧ readADC { declaredState with ADRESH := 2, ADRESL := 0 } = 2500 :=
  ⟨by decide,
   (readADC_millivolts { declaredState with ADRESH := 2, ADRESL := 0 } 512 (by decide)
      (by decide) (by decide)).1.trans (by decide)⟩

/-! ## The call log -/

@[simp] theorem setTris_calls (p : Port) (v : Nat) : (p.setTris v).calls = p.calls := rfl
@[simp] theorem setGpio_calls (p : Port) (v : Nat) : (p.setGpio v).calls = p.calls := rfl
@[simp] theorem clkLow_calls (p : Port) : p.clkLow.calls = p.calls := rfl
@[simp] theorem clkRelease_calls (p : Port) : p.clkRelease.calls = p.calls := rfl
@[simp] theorem dioLow_calls (p : Port) : p.dioLow.calls = p.calls := rfl
@[simp] theorem dioRelease_calls (p : Port) : p.dioRelease.calls = p.calls := rfl

@[simp] theorem tm1637ByteWriteBit_calls (st : Nat × Port) :
    (tm1637ByteWriteBit st).2.calls = st.2.calls := by
  simp only [tm1637ByteWriteBit]
  split_ifs <;> simp

@[simp] theorem tm1637ByteWriteLoop_calls (n : Nat) (st : Nat × Port) :
    (tm1637ByteWriteLoop n st).2.calls = st.2.calls := by
  induction n generalizing st with
  | zero => rfl
  | succ n ih => simp [tm1637ByteWriteLoop, ih]

@[simp] theorem tm1637ByteWrite_calls (b : Nat) (p : Port) :
    (tm1637ByteWrite b p).2.calls = p.calls ++ [BusOp.write (b % 256)] := by
  simp only [tm1637ByteWrite, tm1637ByteWriteAck]
  split_ifs <;> simp

@[simp] theorem tm1637StartCondition_calls (p : Port) :
    (tm1637StartCondition p).calls = p.calls ++ [BusOp.start] := by
  simp [tm1637StartCondition]

@[simp] theorem tm1637StopCondition_calls (p : Port) :
    (tm1637StopCondition p).calls = p.calls ++ [BusOp.stop] := by
  simp [tm1637StopCondition]

theorem segs_table_lt (cell : Nat) : tm1637DisplayNumtoSeg.getD cell 0 < 128 := by
  by_cases h : cell < 10
  · interval_cases cell <;> decide
  · rw [List.getD_eq_default]
    · decide
    · simp only [tm1637DisplayNumtoSeg, List.length]; omega

theorem tm1637DigitSegs_lt (s : Pic) (sb ctr : Nat) : (tm1637DigitSegs s sb ctr).1 < 256 := by
  have h := segs_table_lt (s.tm1637Data.getD ctr 0)
  simp only [tm1637DigitSegs]
  generalize tm1637DisplayNumtoSeg.getD (s.tm1637Data.getD ctr 0) 0 = x at h ⊢
  split_ifs <;> dsimp only <;> omega

/-- The primitives entered by one `tm1637UpdateDisplay`. -/
theorem tm1637UpdateDisplay_calls (s : Pic) :
    callsSince s.port (tm1637UpdateDisplay s).port =
      [BusOp.start, BusOp.write 0x40, BusOp.stop, BusOp.start, BusOp.write 0xC0,
       BusOp.write (tm1637DigitSegs s (if s.zeroBlanking = 0 then 1 else 0) 0).1,
       BusOp.write (tm1637DigitSegs s
         (tm1637DigitSegs s (if s.zeroBlanking = 0 then 1 else 0) 0).2 1).1,
       BusOp.write (tm1637DigitSegs s (tm1637DigitSegs s
         (tm1637DigitSegs s (if s.zeroBlanking = 0 then 1 else 0) 0).2 1).2 2).1,
       BusOp.write (tm1637DigitSegs s (tm1637DigitSegs s (tm1637DigitSegs s
         (tm1637DigitSegs s (if s.zeroBlanking = 0 then 1 else 0) 0).2 1).2 2).2 3).1,
       BusOp.stop, BusOp.start, BusOp.write ((0x88 + s.tm1637Brightness) % 256), BusOp.stop] := by
  have hr : List.range tm1637MaxDigits = [0, 1, 2, 3] := by decide
  have hl := fun sb ctr => Nat.mod_eq_of_lt (tm1637DigitSegs_lt s sb ctr)
  simp only [callsSince, tm1637UpdateDisplay, hr, List.foldl, tm1637UpdateDisplayStep]
  simp [hl, tm1637ByteSetData, tm1637ByteSetAddr, tm1637ByteSetOn]


/-- The segment bytes are the values `tm1637DigitSegs` reaches in the four passes. -/
theorem segmentBytes_eq (s : Pic) :
    segmentBytes s =
      [(tm1637DigitSegs s (if s.zeroBlanking = 0 then 1 else 0) 0).1,
       (tm1637DigitSegs s (tm1637DigitSegs s (if s.zeroBlanking = 0 then 1 else 0) 0).2 1).1,
       (tm1637DigitSegs s (tm1637DigitSegs s
         (tm1637DigitSegs s (if s.zeroBlanking = 0 then 1 else 0) 0).2 1).2 2).1,
       (tm1637DigitSegs s (tm1637DigitSegs s (tm1637DigitSegs s
         (tm1637DigitSegs s (if s.zeroBlanking = 0 then 1 else 0) 0).2 1).2 2).2 3).1] := by
  simp only [segmentBytes, tm1637UpdateDisplay_calls, busWrites, List.drop, List.take]

theorem blanking_bytes (s : Pic) (d0 d1 d2 d3 : Nat) (hd : s.tm1637Data = [d0, d1, d2, d3])
    (hz : s.zeroBlanking ≠ 0) (hp : 4 ≤ s.decimalPointPos) (hn : s.numDisplayedDigits = 4) :
    segmentBytes s =
      [if d0 = 0 then 0 else segOf d0,
       if d0 = 0 ∧ d1 = 0 then 0 else segOf d1,
       if d0 = 0 ∧ d1 = 0 ∧ d2 = 0 then 0 else segOf d2,
       segOf d3] := by
  have p0 : ¬ (0 = s.decimalPointPos) := by omega
  have p1 : ¬ (1 = s.decimalPointPos) := by omega
  have p2 : ¬ (2 = s.decimalPointPos) := by omega
  have p3 : ¬ (3 = s.decimalPointPos) := by omega
  rw [segmentBytes_eq]
  simp only [tm1637DigitSegs, hd, hz, hn, p0, p1, p2, p3, tm1637RightDigit, tm1637MaxDigits, segOf]
  by_cases c0 : d0 = 0 <;> by_cases c1 : d1 = 0 <;> by_cases c2 : d2 = 0 <;>
    by_cases c3 : d3 = 0 <;> simp [c0, c1, c2, c3]

theorem displayOn_byte (b : Nat) (hb : b ≤ 7) : (0x88 + b) % 256 = 0x88 ||| b := by
  interval_cases b <;> rfl

theorem completionSegmentBytes_eq (s : Pic) (h : s.ADCON0 &&& 0x20 = 0) :
    completionSegmentBytes s
      = segmentBytes { s with tm1637Data := roundDigits (getDigitsData (readADC s) s.tm1637Data) } := by
  simp [completionSegmentBytes, caseConverting, h, segmentBytes, getDigits]


/-! ## Port bits -/

theorem testBit_bitClear8 (x b i : Nat) :
    (bitClear8 x b).testBit i = (x.testBit i && (0xFF ^^^ (1 <<< b)).testBit i) := by
  rw [bitClear8, Nat.testBit_and]

theorem testBit_bitSet8 (x b i : Nat) :
    (bitSet8 x b).testBit i = (decide (i < 8) && (x.testBit i || (1 <<< b).testBit i)) := by
  have h : (256 : Nat) = 2 ^ 8 := by norm_num
  rw [bitSet8, h, Nat.testBit_mod_two_pow, Nat.testBit_or]

@[simp] theorem clr5_bit5 (x : Nat) : (bitClear8 x 5).testBit 5 = false := by
  rw [testBit_bitClear8]
  have : (0xFF ^^^ (1 <<< 5)).testBit 5 = false := by decide
  rw [this]
  simp

@[simp] theorem clr5_bit4 (x : Nat) : (bitClear8 x 5).testBit 4 = x.testBit 4 := by
  rw [testBit_bitClear8]
  have : (0xFF ^^^ (1 <<< 5)).testBit 4 = true := by decide
  rw [this]
  simp

@[simp] theorem clr4_bit4 (x : Nat) : (bitClear8 x 4).testBit 4 = false := by
  rw [testBit_bitClear8]
  have : (0xFF ^^^ (1 <<< 4)).testBit 4 = false := by decide
  rw [this]
  simp

@[simp] theorem clr4_bit5 (x : Nat) : (bitClear8 x 4).testBit 5 = x.testBit 5 := by
  rw [testBit_bitClear8]
  have : (0xFF ^^^ (1 <<< 4)).testBit 5 = true := by decide
  rw [this]
  simp

@[simp] theorem set5_bit5 (x : Nat) : (bitSet8 x 5).testBit 5 = true := by
  rw [testBit_bitSet8]
  have : (1 <<< 5).testBit 5 = true := by decide
  rw [this]
  simp

@[simp] theorem set5_bit4 (x : Nat) : (bitSet8 x 5).testBit 4 = x.testBit 4 := by
  rw [testBit_bitSet8]
  have : (1 <<< 5).testBit 4 = false := by decide
  rw [this]
  simp

@[simp] theorem set4_bit4 (x : Nat) : (bitSet8 x 4).testBit 4 = true := by
  rw [testBit_bitSet8]
  have : (1 <<< 4).testBit 4 = true := by decide
  rw [this]
  simp

@[simp] theorem set4_bit5 (x : Nat) : (bitSet8 x 4).testBit 5 = x.testBit 5 := by
  rw [testBit_bitSet8]
  have : (1 <<< 4).testBit 5 = false := by decide
  rw [this]
  simp

theorem lastPair_append (prev : Nat × Nat) (l1 l2 : List (Nat × Nat)) :
    lastPair prev (l1 ++ l2) = lastPair (lastPair prev l1) l2 := by
  induction l1 generalizing prev with
  | nil => rfl
  | cons a l ih => exact ih a

theorem clockEdges_append (prev : Nat × Nat) (l1 l2 : List (Nat × Nat)) :
    clockEdges prev (l1 ++ l2) = clockEdges prev l1 ++ clockEdges (lastPair prev l1) l2 := by
  induction l1 generalizing prev with
  | nil => rfl
  | cons a l ih =>
    simp only [List.cons_append, clockEdges, lastPair]
    split_ifs <;> simp [ih]

theorem extends_trans {p q r : Port} {s1 s2 : List (Nat × Nat)}
    (h1 : p.Extends q s1) (h2 : q.Extends r s2) : p.Extends r (s1 ++ s2) := by
  obtain ⟨a1, b1⟩ := h1
  obtain ⟨a2, b2⟩ := h2
  refine ⟨by rw [a2, a1, List.append_assoc], ?_⟩
  rw [lastPair_append, b1, b2]

theorem wireSince_of_extends {p q : Port} {seg : List (Nat × Nat)} (h : p.Extends q seg) :
    wireSince p q = seg := by
  rw [wireSince, h.1, List.drop_left]

theorem setTris_extends (p : Port) (v : Nat) : p.Extends (p.setTris v) [(v, p.GPIO)] :=
  ⟨rfl, rfl⟩

theorem setGpio_extends (p : Port) (v : Nat) : p.Extends (p.setGpio v) [(p.TRISIO, v)] :=
  ⟨rfl, rfl⟩

theorem clkLow_extends (p : Port) :
    p.Extends p.clkLow [(bitClear8 p.TRISIO 5, p.GPIO), (bitClear8 p.TRISIO 5, bitClear8 p.GPIO 5)] :=
  ⟨by simp [Port.clkLow, Port.setTris, Port.setGpio, tm1637clkTrisBit], rfl⟩

theorem dioLow_extends (p : Port) :
    p.Extends p.dioLow [(bitClear8 p.TRISIO 4, p.GPIO), (bitClear8 p.TRISIO 4, bitClear8 p.GPIO 4)] :=
  ⟨by simp [Port.dioLow, Port.setTris, Port.setGpio, tm1637dioTrisBit], rfl⟩

theorem clkRelease_extends (p : Port) :
    p.Extends p.clkRelease [(bitSet8 p.TRISIO 5, p.GPIO)] := ⟨rfl, rfl⟩

theorem dioRelease_extends (p : Port) :
    p.Extends p.dioRelease [(bitSet8 p.TRISIO 4, p.GPIO)] := ⟨rfl, rfl⟩

/-- One pass of the bit loop records exactly one rising clock edge, with the
data line at the level of bit 0 of `bWrite`. -/
theorem tm1637ByteWriteBit_edges (st : Nat × Port) :
    ∃ seg, st.2.Extends (tm1637ByteWriteBit st).2 seg ∧
      clockEdges st.2.regs seg = [bitDrive (st.1.testBit 0)] := by
  obtain ⟨bw, p⟩ := st
  have hz : bw.testBit 0 = decide (bw % 2 = 1) := Nat.testBit_zero bw
  by_cases hb : bw % 2 = 1
  · have e : (tm1637ByteWriteBit (bw, p)).2 = p.clkLow.dioRelease.clkRelease := by
      simp [tm1637ByteWriteBit, hb]
    rw [e]
    refine ⟨_, extends_trans (clkLow_extends p)
      (extends_trans (dioRelease_extends _) (clkRelease_extends _)), ?_⟩
    simp only [hz, hb, Port.regs, Port.clkLow, Port.dioRelease, Port.setTris, Port.setGpio,
      tm1637clkTrisBit, tm1637dioTrisBit, List.cons_append, List.nil_append, clockEdges,
      clkLine, dioLine]
    cases h1 : p.TRISIO.testBit 5 <;> cases h2 : p.GPIO.testBit 5 <;> simp [bitDrive]
  · have hb0 : ¬ 0 < bw % 2 := by omega
    have e : (tm1637ByteWriteBit (bw, p)).2 = p.clkLow.dioLow.clkRelease := by
      simp [tm1637ByteWriteBit, hb0]
    rw [e]
    refine ⟨_, extends_trans (clkLow_extends p)
      (extends_trans (dioLow_extends _) (clkRelease_extends _)), ?_⟩
    simp only [hz, hb, Port.regs, Port.clkLow, Port.dioLow, Port.setTris, Port.setGpio,
      tm1637clkTrisBit, tm1637dioTrisBit, List.cons_append, List.nil_append, clockEdges,
      clkLine, dioLine]
    cases h1 : p.TRISIO.testBit 5 <;> cases h2 : p.GPIO.testBit 5 <;> simp [bitDrive]


theorem extends_refl (p q : Port) (hw : q.wire = p.wire) (hr : q.regs = p.regs) :
    p.Extends q [] :=
  ⟨by rw [hw, List.append_nil], hr.symm⟩

/-- The bit loop records one rising clock edge per pass, bit `i` of the byte
on the data line at the `i`-th. -/
theorem tm1637ByteWriteLoop_edges (n : Nat) (st : Nat × Port) (hb : st.1 < 256) :
    ∃ seg, st.2.Extends (tm1637ByteWriteLoop n st).2 seg ∧
      clockEdges st.2.regs seg = (List.range n).map (fun i => bitDrive (st.1.testBit i)) := by
  induction n generalizing st with
  | zero => exact ⟨[], extends_refl _ _ rfl rfl, rfl⟩
  | succ n ih =>
    obtain ⟨seg1, e1, c1⟩ := tm1637ByteWriteBit_edges st
    have hs : (tm1637ByteWriteBit st).1 = st.1 >>> 1 := by
      have : st.1 >>> 1 = st.1 / 2 := Nat.shiftRight_eq_div_pow st.1 1
      simp only [tm1637ByteWriteBit]
      omega
    have hlt : (tm1637ByteWriteBit st).1 < 256 := by
      have : st.1 >>> 1 = st.1 / 2 := Nat.shiftRight_eq_div_pow st.1 1
      rw [hs]
      omega
    obtain ⟨seg2, e2, c2⟩ := ih (tm1637ByteWriteBit st) hlt
    refine ⟨seg1 ++ seg2, extends_trans e1 e2, ?_⟩
    rw [clockEdges_append, c1, e1.2, c2, hs, List.range_succ_eq_map]
    simp [Function.comp_def, Nat.add_comm]

/-- The acknowledgment part records exactly one rising clock edge, with the
data line released. -/
theorem tm1637ByteWriteAck_edges (p : Port) :
    ∃ seg, p.Extends (tm1637ByteWriteAck p) seg ∧ clockEdges p.regs seg = [Drive.released] := by
  simp only [tm1637ByteWriteAck]
  split_ifs with h
  · refine ⟨_, extends_trans (clkLow_extends p) (extends_trans (dioRelease_extends _)
      (extends_trans (setGpio_extends _ _) (extends_trans (clkRelease_extends _)
      (extends_trans (extends_refl _ _ rfl rfl)
      (extends_trans (dioLow_extends _) (clkLow_extends _)))))), ?_⟩
    simp only [Port.regs, Port.clkLow, Port.dioRelease, Port.clkRelease, Port.setTris,
      Port.setGpio, tm1637clkTrisBit, tm1637dioTrisBit, List.cons_append, List.nil_append,
      clockEdges, clkLine, dioLine]
    cases h1 : p.TRISIO.testBit 5 <;> cases h2 : p.GPIO.testBit 5 <;> simp
  · refine ⟨_, extends_trans (clkLow_extends p) (extends_trans (dioRelease_extends _)
      (extends_trans (setGpio_extends _ _) (extends_trans (clkRelease_extends _)
      (extends_trans (extends_refl _ _ rfl rfl) (clkLow_extends _))))), ?_⟩
    simp only [Port.regs, Port.clkLow, Port.dioRelease, Port.clkRelease, Port.setTris,
      Port.setGpio, tm1637clkTrisBit, tm1637dioTrisBit, List.cons_append, List.nil_append,
      clockEdges, clkLine, dioLine]
    cases h1 : p.TRISIO.testBit 5 <;> cases h2 : p.GPIO.testBit 5 <;> simp

/-- Rising clock edges recorded by one `tm1637ByteWrite`, from any port state. -/
theorem tm1637ByteWrite_edges (b : Nat) (p : Port) (hb : b < 256) :
    clockEdges p.regs (wireSince p (tm1637ByteWrite b p).2)
      = (List.range 8).map (fun i => bitDrive (b.testBit i)) ++ [Drive.released] := by
  have hm : b % 256 = b := Nat.mod_eq_of_lt hb
  obtain ⟨seg1, e1, c1⟩ := tm1637ByteWriteLoop_edges 8
    (b, { p with calls := p.calls ++ [BusOp.write b] }) hb
  obtain ⟨seg2, e2, c2⟩ := tm1637ByteWriteAck_edges
    (tm1637ByteWriteLoop 8 (b, { p with calls := p.calls ++ [BusOp.write b] })).2
  have e0 : p.Extends { p with calls := p.calls ++ [BusOp.write b] } [] :=
    extends_refl _ _ rfl rfl
  have e := extends_trans e0 (extends_trans e1 e2)
  have hw : wireSince p (tm1637ByteWrite b p).2 = [] ++ (seg1 ++ seg2) := by
    simp only [tm1637ByteWrite, hm]
    exact wireSince_of_extends e
  have l1 : lastPair p.regs seg1
      = (tm1637ByteWriteLoop 8 (b, { p with calls := p.calls ++ [BusOp.write b] })).2.regs :=
    e1.2
  have c1' : clockEdges p.regs seg1 = (List.range 8).map (fun i => bitDrive (b.testBit i)) := c1
  rw [hw, List.nil_append, clockEdges_append, l1, c2, c1']

/-! ## Display composition (claims C5, C7, C9, C10) -/

/-- C5. Blanking law: with `zeroBlanking` enabled, no decimal point
(`decimalPointPos ≥ 4`) and `numDisplayedDigits = 4`, for every cell array
with cells in [0, 9] the segment byte written for index i is 0x00 when i < 3
and the cells 0..i are all 0, and `tm1637DisplayNumtoSeg[cell i]` otherwise. -/
theorem tm1637UpdateDisplay_blanking (s : Pic) (d0 d1 d2 d3 : Nat)
    (hd : s.tm1637Data = [d0, d1, d2, d3]) (h0 : d0 ≤ 9) (h1 : d1 ≤ 9) (h2 : d2 ≤ 9)
    (h3 : d3 ≤ 9) (hz : s.zeroBlanking ≠ 0) (hp : 4 ≤ s.decimalPointPos)
    (hn : s.numDisplayedDigits = 4) (i : Nat) (hi : i < 4) :
    ((i < 3 ∧ ∀ j, j ≤ i → [d0, d1, d2, d3].getD j 0 = 0) →
        (segmentBytes s).getD i 0 = 0x00) ∧
      (¬ (i < 3 ∧ ∀ j, j ≤ i → [d0, d1, d2, d3].getD j 0 = 0) →
        (segmentBytes s).getD i 0 = tm1637DisplayNumtoSeg.getD ([d0, d1, d2, d3].getD i 0) 0) := by
  have a0 : (∀ j, j ≤ 0 → [d0, d1, d2, d3].getD j 0 = 0) ↔ d0 = 0 := by
    constructor
    · intro h
      exact h 0 (by omega)
    · intro h j hj
      interval_cases j
      simpa using h
  have a1 : (∀ j, j ≤ 1 → [d0, d1, d2, d3].getD j 0 = 0) ↔ d0 = 0 ∧ d1 = 0 := by
    constructor
    · intro h
      exact ⟨h 0 (by omega), h 1 (by omega)⟩
    · intro h j hj
      interval_cases j
      · simpa using h.1
      · simpa using h.2
  have a2 : (∀ j, j ≤ 2 → [d0, d1, d2, d3].getD j 0 = 0) ↔ d0 = 0 ∧ d1 = 0 ∧ d2 = 0 := by
    constructor
    · intro h
      exact ⟨h 0 (by omega), h 1 (by omega), h 2 (by omega)⟩
    · intro h j hj
      interval_cases j
      · simpa using h.1
      · simpa using h.2.1
      · simpa using h.2.2
  rw [blanking_bytes s d0 d1 d2 d3 hd hz hp hn]
  interval_cases i
  · rw [a0]
    by_cases c0 : d0 = 0 <;> simp [c0, segOf]
  · rw [a1]
    by_cases c0 : d0 = 0 <;> by_cases c1 : d1 = 0 <;> simp [c0, c1, segOf]
  · rw [a2]
    by_cases c0 : d0 = 0 <;> by_cases c1 : d1 = 0 <;> by_cases c2 : d2 = 0 <;>
      simp [c0, c1, c2, segOf]
  · simp [segOf]

theorem tm1637UpdateDisplay_blanking_witness :
    (segmentBytes (blankingState [0, 0, 3, 0] 99)).getD 0 0 = 0x00 ∧
      (segmentBytes (blankingState [0, 0, 3, 0] 99)).getD 1 0 = 0x00 ∧
      (segmentBytes (blankingState [0, 0, 3, 0] 99)).getD 2 0 = 0x4F ∧
      (segmentBytes (blankingState [0, 0, 3, 0] 99)).getD 3 0 = 0x3F :=
  ⟨(tm1637UpdateDisplay_blanking (blankingState [0, 0, 3, 0] 99) 0 0 3 0 rfl (by decide)
      (by decide) (by decide) (by decide) (by decide) (by decide) rfl 0 (by decide)).1
      ⟨by decide, fun j hj => by interval_cases j; rfl⟩,
   (tm1637UpdateDisplay_blanking (blankingState [0, 0, 3, 0] 99) 0 0 3 0 rfl (by decide)
      (by decide) (by decide) (by decide) (by decide) (by decide) rfl 1 (by decide)).1
      ⟨by decide, fun j hj => by interval_cases j <;> rfl⟩,
   (tm1637UpdateDisplay_blanking (blankingState [0, 0, 3, 0] 99) 0 0 3 0 rfl (by decide)
      (by decide) (by decide) (by decide) (by decide) (by decide) rfl 2 (by decide)).2
      (fun h => absurd (h.2 2 (le_refl 2)) (by decide)),
   (tm1637UpdateDisplay_blanking (blankingState [0, 0, 3, 0] 99) 0 0 3 0 rfl (by decide)
      (by decide) (by decide) (by decide) (by decide) (by decide) rfl 3 (by decide)).2
      (fun h => absurd h.1 (by decide))⟩

/-- C7, evaluated on the code.  With all four digits shown
(`numDisplayedDigits = 4`, decimal point on cell 0, blanking off) and the raw
code 1, `readADC` returns 5, whose digit patterns with the decimal point are
0xBF, 0x3F, 0x3F, 0x6D; the completion step calls `roundDigits` all the same
and writes 0xBF, 0x3F, 0x3F, 0x3F.  At the raw code 512 (2500 mV) the last
digit is 0 and the bytes are 0xDB, 0x6D, 0x3F, 0x3F. -/
theorem completion_rounds_with_four_digits_shown :
    readADC (fourDigitState 1) = 5 ∧
      fourDigitPatterns (readADC (fourDigitState 1)) = [0xBF, 0x3F, 0x3F, 0x6D] ∧
      completionSegmentBytes (fourDigitState 1) = [0xBF, 0x3F, 0x3F, 0x3F] ∧
      completionSegmentBytes (fourDigitState 512) = [0xDB, 0x6D, 0x3F, 0x3F] := by
  have h1 : readADC (fourDigitState 1) = 5 := by decide
  have h2 : getDigitsData (readADC (fourDigitState 1)) (fourDigitState 1).tm1637Data
      = [0, 0, 0, 5] := by
    rw [h1]
    exact getDigitsData_eq 5 0 0 0 0
  have h3 : readADC (fourDigitState 512) = 2500 := by decide
  have h4 : getDigitsData (readADC (fourDigitState 512)) (fourDigitState 512).tm1637Data
      = [2, 5, 0, 0] := by
    rw [h3]
    exact getDigitsData_eq 2500 0 0 0 0
  refine ⟨h1, ?_, ?_, ?_⟩
  · rw [h1]
    decide
  · rw [completionSegmentBytes_eq _ (by decide), h2, segmentBytes_eq]
    decide
  · rw [completionSegmentBytes_eq _ (by decide), h4, segmentBytes_eq]
    decide

/-- C9. Transaction framing: for every cell array with cells in [0, 9],
every format setting and every brightness in [0, 7], `tm1637UpdateDisplay`
enters exactly Start, Write 0x40, Stop, Start, Write 0xC0, Write s0 .. s3,
Stop, Start, Write (0x88 | brightness), Stop, where s0..s3 are the bytes
composed by the four passes of the cell loop, left to right. -/
theorem tm1637UpdateDisplay_framing (s : Pic) (d0 d1 d2 d3 : Nat)
    (hd : s.tm1637Data = [d0, d1, d2, d3]) (h0 : d0 ≤ 9) (h1 : d1 ≤ 9) (h2 : d2 ≤ 9)
    (h3 : d3 ≤ 9) (hb : s.tm1637Brightness ≤ 7) :
    let r0 := tm1637DigitSegs s (if s.zeroBlanking = 0 then 1 else 0) 0
    let r1 := tm1637DigitSegs s r0.2 1
    let r2 := tm1637DigitSegs s r1.2 2
    let r3 := tm1637DigitSegs s r2.2 3
    callsSince s.port (tm1637UpdateDisplay s).port =
      [BusOp.start, BusOp.write 0x40, BusOp.stop,
       BusOp.start, BusOp.write 0xC0, BusOp.write r0.1, BusOp.write r1.1, BusOp.write r2.1,
       BusOp.write r3.1, BusOp.stop,
       BusOp.start, BusOp.write (0x88 ||| s.tm1637Brightness), BusOp.stop] := by
  intro r0 r1 r2 r3
  rw [tm1637UpdateDisplay_calls, displayOn_byte _ hb]

theorem tm1637UpdateDisplay_framing_witness :
    callsSince (blankingState [0, 0, 3, 0] 99).port
        (tm1637UpdateDisplay (blankingState [0, 0, 3, 0] 99)).port =
      [BusOp.start, BusOp.write 0x40, BusOp.stop,
       BusOp.start, BusOp.write 0xC0, BusOp.write 0x00, BusOp.write 0x00, BusOp.write 0x4F,
       BusOp.write 0x3F, BusOp.stop,
       BusOp.start, BusOp.write 0x8D, BusOp.stop] :=
  (tm1637UpdateDisplay_framing (blankingState [0, 0, 3, 0] 99) 0 0 3 0 rfl (by decide)
    (by decide) (by decide) (by decide) (by decide)).trans (by decide)

/-- C10, evaluated on the code.  With blanking on, four digits shown and the
decimal point on cell 0, the cells [0, 5, 0, 0] give the bytes 0x00, 0x6D,
0x3F, 0x3F: the byte of cell 0 has bit 7 clear.  With the decimal point on
cell 3 the cells [0, 0, 0, 0] give 0x00, 0x00, 0x00, 0x3F: the rightmost
digit is shown, without its decimal point. -/
theorem decimal_point_lost_under_blanking :
    segmentBytes (blankingState [0, 5, 0, 0] 0) = [0x00, 0x6D, 0x3F, 0x3F] ∧
      Nat.testBit ((segmentBytes (blankingState [0, 5, 0, 0] 0)).getD 0 0) 7 = false ∧
      segmentBytes (blankingState [0, 0, 0, 0] 3) = [0x00, 0x00, 0x00, 0x3F] ∧
      Nat.testBit ((segmentBytes (blankingState [0, 0, 0, 0] 3)).getD 3 0) 7 = false := by
  rw [segmentBytes_eq, segmentBytes_eq]
  decide

/-! ## Byte write on the wire (claim C8) -/

/-- C8. Bit order: for every byte b and every prior state of the port,
`tm1637ByteWrite b` produces exactly nine rising edges of the clock line; at
the i-th of the first eight (i = 0..7) the data line is released (1) if bit
i of b is 1 and driven low (0) otherwise, and at the ninth, the
acknowledgment pulse, the data line is released to the receiver. -/
theorem tm1637ByteWrite_bit_order (b : Nat) (p : Port) (hb : b < 256) :
    clockEdges p.regs (wireSince p (tm1637ByteWrite b p).2)
        = (List.range 8).map (fun i => bitDrive (b.testBit i)) ++ [Drive.released] ∧
      (clockEdges p.regs (wireSince p (tm1637ByteWrite b p).2)).length = 9 := by
  have h := tm1637ByteWrite_edges b p hb
  refine ⟨h, ?_⟩
  rw [h]
  simp

theorem tm1637ByteWrite_bit_order_witness :
    6 < 256 ∧
      clockEdges declaredState.port.regs
          (wireSince declaredState.port (tm1637ByteWrite 0x06 declaredState.port).2)
        = [Drive.low, Drive.released, Drive.released, Drive.low, Drive.low, Drive.low,
           Drive.low, Drive.low, Drive.released] :=
  ⟨by decide, (tm1637ByteWrite_bit_order 0x06 declaredState.port (by decide)).1.trans (by decide)⟩

/-! ## Digit limit (claim C11) -/

/-- The digit limit does not touch `stopBlanking`. -/
theorem tm1637DigitSegs_snd_limit (s : Pic) (n sb ctr : Nat) :
    (tm1637DigitSegs { s with numDisplayedDigits := n } sb ctr).2
      = (tm1637DigitSegs s sb ctr).2 := by
  simp only [tm1637DigitSegs]
  split_ifs <;> rfl

theorem tm1637DigitSegs_fst_blank (s : Pic) (sb ctr : Nat) (h : s.numDisplayedDigits ≤ ctr) :
    (tm1637DigitSegs s sb ctr).1 = 0 := by
  have hc : (ctr : Int) > (s.numDisplayedDigits : Int) - 1 := by omega
  simp only [tm1637DigitSegs, hc, if_true]

theorem tm1637DigitSegs_fst_shown (s : Pic) (sb ctr : Nat) (h : ctr < s.numDisplayedDigits)
    (h4 : ctr < 4) :
    (tm1637DigitSegs s sb ctr).1
      = (tm1637DigitSegs { s with numDisplayedDigits := 4 } sb ctr).1 := by
  have hc : ¬ ((ctr : Int) > (s.numDisplayedDigits : Int) - 1) := by omega
  have hc4 : ¬ ((ctr : Int) > ((4 : Nat) : Int) - 1) := by omega
  simp only [tm1637DigitSegs, hc, hc4, if_false]

theorem segmentBytes_limit (s : Pic) (i : Nat) (hi : i < 4) :
    (s.numDisplayedDigits ≤ i → (segmentBytes s).getD i 0 = 0x00) ∧
      (i < s.numDisplayedDigits → (segmentBytes s).getD i 0
        = (segmentBytes { s with numDisplayedDigits := 4 }).getD i 0) := by
  rw [segmentBytes_eq, segmentBytes_eq]
  simp only [tm1637DigitSegs_snd_limit]
  constructor
  · intro h
    interval_cases i <;> simp [tm1637DigitSegs_fst_blank _ _ _ h]
  · intro h
    interval_cases i <;> simp [tm1637DigitSegs_fst_shown _ _ _ h]

theorem segmentBytes_none (s : Pic) (h : s.numDisplayedDigits = 0) :
    segmentBytes s = [0x00, 0x00, 0x00, 0x00] := by
  rw [segmentBytes_eq]
  simp [tm1637DigitSegs_fst_blank s _ _ (by omega : s.numDisplayedDigits ≤ 0),
    tm1637DigitSegs_fst_blank s _ _ (by omega : s.numDisplayedDigits ≤ 1),
    tm1637DigitSegs_fst_blank s _ _ (by omega : s.numDisplayedDigits ≤ 2),
    tm1637DigitSegs_fst_blank s _ _ (by omega : s.numDisplayedDigits ≤ 3)]

/-- C11. Digit limit: for every cell array with cells in [0, 9], every
blanking and decimal-point setting and every `numDisplayedDigits` in [0, 4],
the segment byte written for each cell index i ≥ `numDisplayedDigits` is 0x00,
decimal point included; `numDisplayedDigits = 0` blanks all four bytes; and
for i < `numDisplayedDigits` the byte is the one written when no digit limit
applies (`numDisplayedDigits = 4`), i.e. the one the blanking and
decimal-point rules produce. -/
theorem tm1637UpdateDisplay_digit_limit (s : Pic) (d0 d1 d2 d3 : Nat)
    (hd : s.tm1637Data = [d0, d1, d2, d3]) (h0 : d0 ≤ 9) (h1 : d1 ≤ 9) (h2 : d2 ≤ 9)
    (h3 : d3 ≤ 9) (hn : s.numDisplayedDigits ≤ 4) (i : Nat) (hi : i < 4) :
    (s.numDisplayedDigits ≤ i → (segmentBytes s).getD i 0 = 0x00) ∧
      (i < s.numDisplayedDigits → (segmentBytes s).getD i 0
        = (segmentBytes { s with numDisplayedDigits := 4 }).getD i 0) ∧
      (s.numDisplayedDigits = 0 → segmentBytes s = [0x00, 0x00, 0x00, 0x00]) :=
  ⟨(segmentBytes_limit s i hi).1, (segmentBytes_limit s i hi).2, segmentBytes_none s⟩

theorem tm1637UpdateDisplay_digit_limit_witness :
    (segmentBytes { blankingState [1, 2, 3, 4] 3 with numDisplayedDigits := 3 }).getD 3 0 = 0x00 ∧
      (segmentBytes { blankingState [1, 2, 3, 4] 3 with numDisplayedDigits := 3 }).getD 2 0
        = (segmentBytes { blankingState [1, 2, 3, 4] 3 with numDisplayedDigits := 4 }).getD 2 0 ∧
      segmentBytes { blankingState [1, 2, 3, 4] 3 with numDisplayedDigits := 0 }
        = [0x00, 0x00, 0x00, 0x00] :=
  ⟨(tm1637UpdateDisplay_digit_limit { blankingState [1, 2, 3, 4] 3 with numDisplayedDigits := 3 }
      1 2 3 4 rfl (by decide) (by decide) (by decide) (by decide) (by decide) 3 (by decide)).1
      (by decide),
   (tm1637UpdateDisplay_digit_limit { blankingState [1, 2, 3, 4] 3 with numDisplayedDigits := 3 }
      1 2 3 4 rfl (by decide) (by decide) (by decide) (by decide) (by decide) 2 (by decide)).2.1
      (by decide),
   (tm1637UpdateDisplay_digit_limit { blankingState [1, 2, 3, 4] 3 with numDisplayedDigits := 0 }
      1 2 3 4 rfl (by decide) (by decide) (by decide) (by decide) (by decide) 0 (by decide)).2.2
      rfl⟩

/-! ## The loop pass, stage by stage -/

theorem mainLoopPass_eq (s : Pic) :
    mainLoopPass s = passLed (passSwitch (passInterval (passTick s))) := rfl

@[simp] theorem passLed_ADCreadStatus (s : Pic) :
    (passLed s).ADCreadStatus = s.ADCreadStatus := by
  simp only [passLed, LEDflash]
  split_ifs <;> rfl

@[simp] theorem passLed_ADCreadcounter (s : Pic) :
    (passLed s).ADCreadcounter = s.ADCreadcounter := by
  simp only [passLed, LEDflash]
  split_ifs <;> rfl

@[simp] theorem passLed_timer1Flag (s : Pic) : (passLed s).timer1Flag = s.timer1Flag := by
  simp only [passLed, LEDflash]
  split_ifs <;> rfl

@[simp] theorem passLed_ADCON0 (s : Pic) : (passLed s).ADCON0 = s.ADCON0 := by
  simp only [passLed, LEDflash]
  split_ifs <;> rfl

@[simp] theorem passLed_LEDcounter (s : Pic) : (passLed s).LEDcounter = s.LEDcounter := by
  simp only [passLed, LEDflash]
  split_ifs <;> rfl

@[simp] theorem passLed_calls (s : Pic) : (passLed s).port.calls = s.port.calls := by
  simp only [passLed, LEDflash]
  split_ifs <;> rfl

theorem lor_one_land_one (x : Nat) : (x ||| 0x01) &&& 0x01 ≠ 0 := by
  have h : ((x ||| 1) &&& 1).testBit 0 = true := by
    rw [Nat.testBit_and, Nat.testBit_or]
    simp
  intro h0
  rw [h0] at h
  simp at h

@[simp] theorem arrive_ADCreadStatus (x : Stimulus) (s : Pic) :
    (arrive x s).ADCreadStatus = s.ADCreadStatus := by
  simp only [arrive, ISR]
  split_ifs <;> rfl

@[simp] theorem arrive_ADCreadcounter (x : Stimulus) (s : Pic) :
    (arrive x s).ADCreadcounter = s.ADCreadcounter := by
  simp only [arrive, ISR]
  split_ifs <;> rfl

@[simp] theorem arrive_ADCON0 (x : Stimulus) (s : Pic) : (arrive x s).ADCON0 = x.ADCON0 := by
  simp only [arrive, ISR]
  split_ifs <;> rfl

theorem arrive_timer1Flag (x : Stimulus) (s : Pic) :
    (arrive x s).timer1Flag = if x.tick then 1 else s.timer1Flag := by
  simp only [arrive, ISR]
  split_ifs with h1 h2
  · rfl
  · exact absurd (lor_one_land_one s.PIR1) h2
  · rfl

theorem runPasses_append (s : Pic) (pre : List Stimulus) (x : Stimulus) :
    runPasses s (pre ++ [x]) = mainLoopPass (arrive x (runPasses s pre)) := by
  induction pre generalizing s with
  | nil => rfl
  | cons y ys ih => exact ih _

theorem tickCount_append (pre : List Stimulus) (x : Stimulus) :
    tickCount (pre ++ [x]) = tickCount pre + (if x.tick then 1 else 0) := by
  simp only [tickCount, List.filter_append, List.length_append, List.filter]
  cases x.tick <;> rfl

/-- A pass in the idle state that does not bring the interval counter to 10
stays idle and only counts the tick. -/
theorem idle_pass (s : Pic) (x : Stimulus) (hS : s.ADCreadStatus = NOCONVERSION)
    (hF : s.timer1Flag = 0) (hc : s.ADCreadcounter + (if x.tick then 1 else 0) < 10) :
    ¬ startsConversion (arrive x s) ∧
      (mainLoopPass (arrive x s)).ADCreadStatus = NOCONVERSION ∧
      (mainLoopPass (arrive x s)).timer1Flag = 0 ∧
      (mainLoopPass (arrive x s)).ADCreadcounter
        = s.ADCreadcounter + (if x.tick then 1 else 0) := by
  have hf := arrive_timer1Flag x s
  cases ht : x.tick
  · simp only [ht, Bool.false_eq_true, if_false, Nat.add_zero] at hc hf
    have hc' : ¬ (s.ADCreadcounter ≥ 10) := by omega
    simp [mainLoopPass_eq, startsConversion, passSwitch, passInterval, passTick, hf, hF, hS, hc',
      NOCONVERSION, STARTADCREAD]
  · simp only [ht, if_true] at hc hf
    have hm : (s.ADCreadcounter + 1) % 256 = s.ADCreadcounter + 1 := Nat.mod_eq_of_lt (by omega)
    have hc' : ¬ (s.ADCreadcounter + 1 ≥ 10) := by omega
    simp [mainLoopPass_eq, startsConversion, passSwitch, passInterval, passTick, hf, hS, hm, hc',
      NOCONVERSION, STARTADCREAD]

/-- The pass that counts the tenth tick runs `case STARTADCREAD:`. -/
theorem start_pass (s : Pic) (x : Stimulus) (hc : s.ADCreadcounter = 9) (ht : x.tick = true) :
    startsConversion (arrive x s) ∧
      (mainLoopPass (arrive x s)).ADCreadStatus = CONVERTING ∧
      (mainLoopPass (arrive x s)).ADCreadcounter = 0 ∧
      (mainLoopPass (arrive x s)).ADCON0 = (x.ADCON0 ||| 0x02) % 256 := by
  have hf := arrive_timer1Flag x s
  simp only [ht, if_true] at hf
  simp [mainLoopPass_eq, startsConversion, passSwitch, passInterval, passTick, hf, hc,
    caseStartADCRead, NOCONVERSION, STARTADCREAD, CONVERTING]

theorem runPasses_idle (pre : List Stimulus) (s : Pic) (hS : s.ADCreadStatus = NOCONVERSION)
    (hF : s.timer1Flag = 0) (hc : s.ADCreadcounter + tickCount pre < 10) :
    (runPasses s pre).ADCreadStatus = NOCONVERSION ∧ (runPasses s pre).timer1Flag = 0 ∧
      (runPasses s pre).ADCreadcounter = s.ADCreadcounter + tickCount pre := by
  induction pre using List.reverseRecOn with
  | nil => exact ⟨hS, hF, rfl⟩
  | append_singleton ys y ih =>
    rw [tickCount_append] at hc
    obtain ⟨a, b, c⟩ := ih (by omega)
    have h := idle_pass (runPasses s ys) y a b (by rw [c]; omega)
    rw [runPasses_append, tickCount_append]
    exact ⟨h.2.1, h.2.2.1, by rw [h.2.2.2, c]; omega⟩

/-! ## Acquisition cadence (claim C12) -/

/-- C12. Acquisition cadence: from the state `main` establishes before its
loop (`ADCreadStatus = NOCONVERSION`, `ADCreadcounter = 0`, `timer1Flag = 0`)
and for every sequence of passes, a pass up to which fewer than ten tick
flags were consumed does not issue the start-conversion command and ends
idle with `ADCreadcounter` equal to the number of ticks, and the pass that
consumes the tenth tick flag issues it (`ADCON0 |= 0x02`), ends in
CONVERTING and ends with `ADCreadcounter = 0`. -/
theorem acquisition_cadence (s0 : Pic) (hS : s0.ADCreadStatus = NOCONVERSION)
    (hC : s0.ADCreadcounter = 0) (hF : s0.timer1Flag = 0) (pre : List Stimulus)
    (x : Stimulus) :
    (tickCount (pre ++ [x]) < 10 →
        ¬ startsConversion (arrive x (runPasses s0 pre)) ∧
        (runPasses s0 (pre ++ [x])).ADCreadStatus = NOCONVERSION ∧
        (runPasses s0 (pre ++ [x])).ADCreadcounter = tickCount (pre ++ [x])) ∧
      (tickCount pre = 9 → x.tick = true →
        startsConversion (arrive x (runPasses s0 pre)) ∧
        (runPasses s0 (pre ++ [x])).ADCreadStatus = CONVERTING ∧
        (runPasses s0 (pre ++ [x])).ADCreadcounter = 0 ∧
        (runPasses s0 (pre ++ [x])).ADCON0 = (x.ADCON0 ||| 0x02) % 256) := by
  constructor
  · intro h
    rw [tickCount_append] at h
    obtain ⟨a, b, c⟩ := runPasses_idle pre s0 hS hF (by omega)
    have hp := idle_pass (runPasses s0 pre) x a b (by rw [c, hC]; omega)
    rw [runPasses_append, tickCount_append]
    exact ⟨hp.1, hp.2.1, by rw [hp.2.2.2, c, hC]; omega⟩
  · intro h9 ht
    obtain ⟨_, _, c⟩ := runPasses_idle pre s0 hS hF (by omega)
    rw [runPasses_append]
    exact start_pass (runPasses s0 pre) x (by rw [c, hC, h9]) ht

theorem acquisition_cadence_witness :
    (¬ startsConversion (arrive (quiet true) (runPasses declaredState [quiet true, quiet false])) ∧
        (runPasses declaredState ([quiet true, quiet false] ++ [quiet true])).ADCreadStatus
          = NOCONVERSION ∧
        (runPasses declaredState ([quiet true, quiet false] ++ [quiet true])).ADCreadcounter
          = tickCount ([quiet true, quiet false] ++ [quiet true])) ∧
      (startsConversion (arrive (quiet true)
          (runPasses declaredState (List.replicate 9 (quiet true)))) ∧
        (runPasses declaredState (List.replicate 9 (quiet true) ++ [quiet true])).ADCreadStatus
          = CONVERTING ∧
        (runPasses declaredState (List.replicate 9 (quiet true) ++ [quiet true])).ADCreadcounter
          = 0 ∧
        (runPasses declaredState (List.replicate 9 (quiet true) ++ [quiet true])).ADCON0
          = ((quiet true).ADCON0 ||| 0x02) % 256) :=
  ⟨(acquisition_cadence declaredState rfl rfl rfl [quiet true, quiet false] (quiet true)).1
      (by decide),
   (acquisition_cadence declaredState rfl rfl rfl (List.replicate 9 (quiet true))
      (quiet true)).2 (by decide) rfl⟩

/-! ## The acquisition state machine (claims C13, C14, C15) -/

/-- C13, evaluated on the code.  The step taken from
`ADCreadStatus = STARTADCREAD` sets ADCON0 bit 1, moves to CONVERTING and
clears `LEDcounter`, and it sets `LEDonTime` to 1 (in every state), not to
5: the flash lasts while `LEDcounter ≤ 1`, and the first pass with
`LEDcounter = 2` switches GP2 off and clears `LEDonTime`. -/
theorem start_step_sets_one_tick_flash :
    (∀ s : Pic, (caseStartADCRead s).LEDonTime = 1) ∧
      Nat.testBit (passSwitch { declaredState with ADCreadStatus := STARTADCREAD }).ADCON0 1
        = true ∧
      (passSwitch { declaredState with ADCreadStatus := STARTADCREAD }).ADCreadStatus
        = CONVERTING ∧
      (passSwitch { declaredState with ADCreadStatus := STARTADCREAD }).LEDcounter = 0 ∧
      (passSwitch { declaredState with ADCreadStatus := STARTADCREAD }).LEDonTime = 1 ∧
      (passLed { declaredState with LEDcounter := 2, LEDonTime := 1 }).LEDonTime = 0 ∧
      Nat.testBit (passLed { declaredState with LEDcounter := 2, LEDonTime := 1 }).port.GPIO 2
        = false := by
  refine ⟨fun s => rfl, ?_, ?_, ?_, ?_, ?_, ?_⟩ <;> decide

/-- The completion step writes the display and returns to the idle state. -/
theorem caseConverting_complete (s : Pic) (h : s.ADCON0 &&& 0x20 = 0) :
    (caseConverting s).ADCreadStatus = NOCONVERSION ∧
      (callsSince s.port (caseConverting s).port).length = 13 := by
  have hc := tm1637UpdateDisplay_calls
    { s with tm1637Data := roundDigits (getDigits (readADC s) s.tm1637Data).2 }
  have hp : (caseConverting s).port = (tm1637UpdateDisplay
      { s with tm1637Data := roundDigits (getDigits (readADC s) s.tm1637Data).2 }).port := by
    simp [caseConverting, h]
  constructor
  · simp [caseConverting, h]
  · rw [hp]
    exact (congrArg List.length hc).trans rfl

theorem caseConverting_waiting (s : Pic) (h : s.ADCON0 &&& 0x20 ≠ 0) : caseConverting s = s := by
  simp only [caseConverting, h, if_false]

/-- C15, evaluated on the code.  In the CONVERTING state with
ADCON0 = 0x83, GO/DONE (bit 1) still set, the step updates the display
(13 protocol primitives) and returns to NOCONVERSION: the poll tests 0x20,
bit 5, not bit 1.  With ADCON0 = 0xA1, GO/DONE clear and bit 5 set, the
step does nothing. -/
theorem completion_poll_tests_bit_five :
    Nat.testBit (convertingState 0x83 0 0).ADCON0 1 = true ∧
      (caseConverting (convertingState 0x83 0 0)).ADCreadStatus = NOCONVERSION ∧
      (callsSince (convertingState 0x83 0 0).port
        (caseConverting (convertingState 0x83 0 0)).port).length = 13 ∧
      (mainLoopPass (convertingState 0x83 0 0)).ADCreadStatus = NOCONVERSION ∧
      Nat.testBit (convertingState 0xA1 0 0).ADCON0 1 = false ∧
      caseConverting (convertingState 0xA1 0 0) = convertingState 0xA1 0 0 := by
  have h := caseConverting_complete (convertingState 0x83 0 0) (by decide)
  refine ⟨by decide, h.1, h.2, ?_, by decide, caseConverting_waiting _ (by decide)⟩
  have e : passSwitch (passInterval (passTick (convertingState 0x83 0 0)))
      = caseConverting (convertingState 0x83 0 0) := by
    simp [passSwitch, passInterval, passTick, convertingState, declaredState, CONVERTING,
      NOCONVERSION, STARTADCREAD]
  rw [mainLoopPass_eq, passLed_ADCreadStatus, e]
  exact h.1

theorem passLed_LEDonTime (s : Pic) :
    (passLed s).LEDonTime = s.LEDonTime ∨ (passLed s).LEDonTime = 0 := by
  simp only [passLed, LEDflash]
  split_ifs
  · exact Or.inl rfl
  · exact Or.inr rfl
  · exact Or.inl rfl

@[simp] theorem passLed_tm1637Data (s : Pic) : (passLed s).tm1637Data = s.tm1637Data := by
  simp only [passLed, LEDflash]
  split_ifs <;> rfl

theorem passSwitch_waiting (t : Pic) (hS : t.ADCreadStatus = CONVERTING)
    (hP : t.ADCON0 &&& 0x20 ≠ 0) : passSwitch t = t := by
  simp only [passSwitch, hS]
  rw [if_neg (by decide), if_neg (by decide), if_pos trivial]
  exact caseConverting_waiting t hP

theorem caseConverting_ADCON0 (s : Pic) : (caseConverting s).ADCON0 = s.ADCON0 := by
  simp only [caseConverting]
  split_ifs <;> rfl

theorem caseConverting_LEDcounter (s : Pic) : (caseConverting s).LEDcounter = s.LEDcounter := by
  simp only [caseConverting]
  split_ifs <;> rfl

theorem caseConverting_LEDonTime (s : Pic) : (caseConverting s).LEDonTime = s.LEDonTime := by
  simp only [caseConverting]
  split_ifs <;> rfl

/-- The CONVERTING step either changes nothing or runs the completion step. -/
theorem caseConverting_cases (s : Pic) :
    caseConverting s = s ∨
      ((caseConverting s).ADCreadStatus = NOCONVERSION ∧
        (callsSince s.port (caseConverting s).port).length = 13) := by
  by_cases h : s.ADCON0 &&& 0x20 = 0
  · exact Or.inr (caseConverting_complete s h)
  · exact Or.inl (caseConverting_waiting s h)

theorem passSwitch_converting (t : Pic) (hS : t.ADCreadStatus = CONVERTING) :
    passSwitch t = caseConverting t := by
  simp only [passSwitch, hS]
  rw [if_neg (by decide), if_neg (by decide), if_pos trivial]

theorem callsSince_passLed (p : Port) (s : Pic) :
    callsSince p (passLed s).port = callsSince p s.port := by
  simp only [callsSince, passLed_calls]

@[simp] theorem setTris_dioIn (p : Port) (v : Nat) : (p.setTris v).dioIn = p.dioIn := rfl
@[simp] theorem setGpio_dioIn (p : Port) (v : Nat) : (p.setGpio v).dioIn = p.dioIn := rfl
@[simp] theorem clkLow_dioIn (p : Port) : p.clkLow.dioIn = p.dioIn := rfl
@[simp] theorem clkRelease_dioIn (p : Port) : p.clkRelease.dioIn = p.dioIn := rfl
@[simp] theorem dioLow_dioIn (p : Port) : p.dioLow.dioIn = p.dioIn := rfl
@[simp] theorem dioRelease_dioIn (p : Port) : p.dioRelease.dioIn = p.dioIn := rfl

@[simp] theorem tm1637ByteWriteBit_dioIn (st : Nat × Port) :
    (tm1637ByteWriteBit st).2.dioIn = st.2.dioIn := by
  simp only [tm1637ByteWriteBit]
  split_ifs <;> simp

@[simp] theorem tm1637ByteWriteLoop_dioIn (n : Nat) (st : Nat × Port) :
    (tm1637ByteWriteLoop n st).2.dioIn = st.2.dioIn := by
  induction n generalizing st with
  | zero => rfl
  | succ n ih => simp [tm1637ByteWriteLoop, ih]

/-- At the pin read both lines are released and both latches are low. -/
theorem tm1637AckSample_bits (p : Port) :
    Nat.testBit (Port.TRISIO (tm1637AckSample p)) 4 = true ∧
      Nat.testBit (Port.TRISIO (tm1637AckSample p)) 5 = true ∧
      Nat.testBit (Port.GPIO (tm1637AckSample p)) 4 = false ∧
      Nat.testBit (Port.GPIO (tm1637AckSample p)) 5 = false ∧
      (tm1637AckSample p).dioIn = p.dioIn := by
  simp [tm1637AckSample, Port.clkLow, Port.dioRelease, Port.clkRelease, Port.setTris,
    Port.setGpio, tm1637clkTrisBit, tm1637dioTrisBit]

theorem tm1637ByteWriteAck_eq (p : Port) :
    tm1637ByteWriteAck p =
      Port.clkLow (if !(tm1637AckSample p).readDio
        then Port.dioLow { tm1637AckSample p with dioIn := (tm1637AckSample p).dioIn.tail }
        else { tm1637AckSample p with dioIn := (tm1637AckSample p).dioIn.tail }) := rfl

/-- What follows the pin read, for a port `q` with both lines released and
both latches low. -/
theorem ack_tail (q : Port) (h4 : q.TRISIO.testBit 4 = true) (h5 : q.TRISIO.testBit 5 = true)
    (g4 : q.GPIO.testBit 4 = false) (g5 : q.GPIO.testBit 5 = false) :
    (q.readDio = false →
        (wireSince q (Port.clkLow (Port.dioLow { q with dioIn := q.dioIn.tail }))).map lineLevels
          = [(true, Drive.low), (true, Drive.low), (false, Drive.low), (false, Drive.low)] ∧
        lineLevels (Port.clkLow (Port.dioLow { q with dioIn := q.dioIn.tail })).regs
          = (false, Drive.low)) ∧
      (q.readDio = true →
        (wireSince q (Port.clkLow { q with dioIn := q.dioIn.tail })).map lineLevels
          = [(false, Drive.released), (false, Drive.released)] ∧
        lineLevels (Port.clkLow { q with dioIn := q.dioIn.tail }).regs
          = (false, Drive.released)) := by
  have e0 : q.Extends { q with dioIn := q.dioIn.tail } [] := extends_refl _ _ rfl rfl
  constructor
  · intro _
    have e := extends_trans e0 (extends_trans (dioLow_extends _) (clkLow_extends _))
    rw [wireSince_of_extends e]
    simp [lineLevels, clkLine, dioLine, Port.regs, Port.clkLow, Port.dioLow, Port.setTris,
      Port.setGpio, tm1637clkTrisBit, tm1637dioTrisBit, h4, h5, g4, g5]
  · intro _
    have e := extends_trans e0 (clkLow_extends _)
    rw [wireSince_of_extends e]
    simp [lineLevels, clkLine, dioLine, Port.regs, Port.clkLow, Port.setTris,
      Port.setGpio, tm1637clkTrisBit, tm1637dioTrisBit, h4, h5, g4, g5]

theorem tm1637ByteWrite_snd (b : Nat) (p : Port) :
    (tm1637ByteWrite b p).2 =
      Port.clkLow (if !(tm1637ByteWriteSample b p).readDio
        then Port.dioLow { tm1637ByteWriteSample b p with
                             dioIn := (tm1637ByteWriteSample b p).dioIn.tail }
        else { tm1637ByteWriteSample b p with
                 dioIn := (tm1637ByteWriteSample b p).dioIn.tail }) := rfl

theorem tm1637ByteWriteSample_bits (b : Nat) (p : Port) :
    Nat.testBit (Port.TRISIO (tm1637ByteWriteSample b p)) 4 = true ∧
      Nat.testBit (Port.TRISIO (tm1637ByteWriteSample b p)) 5 = true ∧
      Nat.testBit (Port.GPIO (tm1637ByteWriteSample b p)) 4 = false ∧
      Nat.testBit (Port.GPIO (tm1637ByteWriteSample b p)) 5 = false ∧
      (tm1637ByteWriteSample b p).dioIn = p.dioIn := by
  obtain ⟨a1, a2, a3, a4, a5⟩ := tm1637AckSample_bits
    (tm1637ByteWriteLoop 8 (b % 256,
      { p with calls := p.calls ++ [BusOp.write (b % 256)] })).2
  refine ⟨a1, a2, a3, a4, ?_⟩
  rw [tm1637ByteWriteSample, a5, tm1637ByteWriteLoop_dioIn]

/-- The acknowledgment part of `tm1637ByteWrite`, from the pin read on. -/
theorem tm1637ByteWrite_ack (b : Nat) (p : Port) :
    (tm1637ByteWrite b p).1 = 1 ∧
      (tm1637ByteWriteSample b p).readDio = p.dioIn.headD true ∧
      lineLevels (tm1637ByteWriteSample b p).regs = (true, Drive.released) ∧
      ((tm1637ByteWriteSample b p).readDio = false →
        (wireSince (tm1637ByteWriteSample b p) (tm1637ByteWrite b p).2).map lineLevels
          = [(true, Drive.low), (true, Drive.low), (false, Drive.low), (false, Drive.low)] ∧
        lineLevels (tm1637ByteWrite b p).2.regs = (false, Drive.low)) ∧
      ((tm1637ByteWriteSample b p).readDio = true →
        (wireSince (tm1637ByteWriteSample b p) (tm1637ByteWrite b p).2).map lineLevels
          = [(false, Drive.released), (false, Drive.released)] ∧
        lineLevels (tm1637ByteWrite b p).2.regs = (false, Drive.released)) := by
  obtain ⟨h4, h5, g4, g5, hd⟩ := tm1637ByteWriteSample_bits b p
  have ht := ack_tail (tm1637ByteWriteSample b p) h4 h5 g4 g5
  refine ⟨rfl, ?_, ?_, ?_, ?_⟩
  · simp [Port.readDio, tm1637dioTrisBit, h4, hd]
  · simp [lineLevels, clkLine, dioLine, Port.regs, tm1637clkTrisBit, tm1637dioTrisBit, h4, h5]
  · intro h
    rw [tm1637ByteWrite_snd, h]
    exact ht.1 h
  · intro h
    rw [tm1637ByteWrite_snd, h]
    exact ht.2 h

/-- C16 as stated fails: when the data line reads high at the acknowledgment
pulse (no acknowledgment), `tm1637ByteWrite 0x06` leaves the data pin an
input: after the read the clock line is driven low with the data line still
released, and the data line ends released, TRISIO bit 4 set. -/
theorem no_acknowledgment_leaves_data_released :
    (tm1637ByteWriteSample 0x06 (portReading true)).readDio = true ∧
      (wireSince (tm1637ByteWriteSample 0x06 (portReading true))
          (tm1637ByteWrite 0x06 (portReading true)).2).map lineLevels
        = [(false, Drive.released), (false, Drive.released)] ∧
      dioLine (tm1637ByteWrite 0x06 (portReading true)).2.regs = Drive.released ∧
      dioLine (tm1637ByteWrite 0x06 (portReading true)).2.regs ≠ Drive.low := by
  have h := tm1637ByteWrite_ack 0x06 (portReading true)
  have hr : (tm1637ByteWriteSample 0x06 (portReading true)).readDio = true := h.2.1
  have hl := (h.2.2.2.2 hr).2
  have hd : dioLine (tm1637ByteWrite 0x06 (portReading true)).2.regs = Drive.released :=
    congrArg Prod.snd hl
  refine ⟨hr, (h.2.2.2.2 hr).1, hd, ?_⟩
  rw [hd]
  decide

/-- C16, amended.  For every byte and every prior port state,
`tm1637ByteWrite` returns 1 and reads the data pin with both lines released.
When the pin reads low (the receiver acknowledges) it switches the data pin
to an output driven low while the clock is still high, then drives the
clock low, and the data line ends driven low.  When the pin reads high (no
acknowledgment) it only drives the clock low, and the data line ends
released. -/
theorem tm1637ByteWrite_ack_handling (b : Nat) (p : Port) :
    (tm1637ByteWrite b p).1 = 1 ∧
      (tm1637ByteWriteSample b p).readDio = p.dioIn.headD true ∧
      lineLevels (tm1637ByteWriteSample b p).regs = (true, Drive.released) ∧
      ((tm1637ByteWriteSample b p).readDio = false →
        (wireSince (tm1637ByteWriteSample b p) (tm1637ByteWrite b p).2).map lineLevels
          = [(true, Drive.low), (true, Drive.low), (false, Drive.low), (false, Drive.low)] ∧
        lineLevels (tm1637ByteWrite b p).2.regs = (false, Drive.low)) ∧
      ((tm1637ByteWriteSample b p).readDio = true →
        (wireSince (tm1637ByteWriteSample b p) (tm1637ByteWrite b p).2).map lineLevels
          = [(false, Drive.released), (false, Drive.released)] ∧
        lineLevels (tm1637ByteWrite b p).2.regs = (false, Drive.released)) :=
  tm1637ByteWrite_ack b p

theorem tm1637ByteWrite_ack_handling_witness :
    (wireSince (tm1637ByteWriteSample 0x06 (portReading false))
          (tm1637ByteWrite 0x06 (portReading false)).2).map lineLevels
        = [(true, Drive.low), (true, Drive.low), (false, Drive.low), (false, Drive.low)] ∧
      lineLevels (tm1637ByteWrite 0x06 (portReading false)).2.regs = (false, Drive.low) :=
  (tm1637ByteWrite_ack_handling 0x06 (portReading false)).2.2.2.1
    (tm1637ByteWrite_ack_handling 0x06 (portReading false)).2.1

/-! ## Indicator and interrupt (claims C17, C18) -/

theorem set2_bit2 (x : Nat) : (bitSet8 x 2).testBit 2 = true := by
  rw [testBit_bitSet8]
  have : (1 <<< 2).testBit 2 = true := by decide
  rw [this]
  simp

theorem clr2_bit2 (x : Nat) : (bitClear8 x 2).testBit 2 = false := by
  rw [testBit_bitClear8]
  have : (0xFF ^^^ (1 <<< 2)).testBit 2 = false := by decide
  rw [this]
  simp

/-- C17. Indicator step: for every `LEDcounter` and every non-zero
`LEDonTime`, the indicator part of a loop pass (`if (LEDonTime) LEDflash();`)
sets GP2 to 1 and leaves `LEDonTime` unchanged when
`LEDcounter ≤ LEDonTime`, and otherwise sets GP2 to 0 and `LEDonTime` to 0;
when `LEDonTime` is 0 it changes nothing, so neither GP2 nor `LEDonTime`. -/
theorem indicator_step (s : Pic) :
    mainLoopPass s = passLed (passSwitch (passInterval (passTick s))) ∧
      (s.LEDonTime ≠ 0 → s.LEDcounter ≤ s.LEDonTime →
        Nat.testBit (passLed s).port.GPIO 2 = true ∧ (passLed s).LEDonTime = s.LEDonTime) ∧
      (s.LEDonTime ≠ 0 → ¬ s.LEDcounter ≤ s.LEDonTime →
        Nat.testBit (passLed s).port.GPIO 2 = false ∧ (passLed s).LEDonTime = 0) ∧
      (s.LEDonTime = 0 → passLed s = s) := by
  refine ⟨rfl, ?_, ?_, ?_⟩
  · intro h1 h2
    simp only [passLed, LEDflash, h1, h2, ne_eq, not_false_eq_true, if_true]
    exact ⟨set2_bit2 _, trivial⟩
  · intro h1 h2
    simp only [passLed, LEDflash, h1, h2, ne_eq, not_false_eq_true, if_true, if_false]
    exact ⟨clr2_bit2 _, trivial⟩
  · intro h
    simp [passLed, h]

theorem indicator_step_witness :
    (Nat.testBit (passLed { declaredState with LEDcounter := 1, LEDonTime := 1 }).port.GPIO 2
        = true ∧
      (passLed { declaredState with LEDcounter := 1, LEDonTime := 1 }).LEDonTime
        = ({ declaredState with LEDcounter := 1, LEDonTime := 1 } : Pic).LEDonTime) ∧
      (Nat.testBit (passLed { declaredState with LEDcounter := 2, LEDonTime := 1 }).port.GPIO 2
        = false ∧
      (passLed { declaredState with LEDcounter := 2, LEDonTime := 1 }).LEDonTime = 0) ∧
      passLed declaredState = declaredState :=
  ⟨(indicator_step { declaredState with LEDcounter := 1, LEDonTime := 1 }).2.1
      (by decide) (by decide),
   (indicator_step { declaredState with LEDcounter := 2, LEDonTime := 1 }).2.2.1
      (by decide) (by decide),
   (indicator_step declaredState).2.2.2 rfl⟩

/-- C18. Interrupt frame: for every program state, `ISR` changes nothing
when PIR1 bit 0 is clear; when it is set, `ISR` clears PIR1 bit 0 (the other
PIR1 bits keep their values), reloads TMR1H and TMR1L with 0x20 and 0xFF,
sets `timer1Flag` to 1 and changes nothing else; `ADCreadcounter`,
`LEDcounter`, `ADCreadStatus`, `LEDonTime`, `tm1637Data`, the display format
variables, ADCON0 and the port are unchanged in every case. -/
theorem ISR_frame (s : Pic) :
    (s.PIR1 &&& 0x01 = 0 → ISR s = s) ∧
      (s.PIR1 &&& 0x01 ≠ 0 →
        ISR s = { s with PIR1 := s.PIR1 &&& 0xFE, TMR1H := 0x20, TMR1L := 0xFF,
                         timer1Flag := 1 }) ∧
      Nat.testBit (s.PIR1 &&& 0xFE) 0 = false ∧
      (∀ i, i ≠ 0 → i < 8 → Nat.testBit (s.PIR1 &&& 0xFE) i = Nat.testBit s.PIR1 i) ∧
      (ISR s).ADCreadcounter = s.ADCreadcounter ∧ (ISR s).LEDcounter = s.LEDcounter ∧
      (ISR s).ADCreadStatus = s.ADCreadStatus ∧ (ISR s).LEDonTime = s.LEDonTime ∧
      (ISR s).tm1637Data = s.tm1637Data ∧ (ISR s).tm1637Brightness = s.tm1637Brightness ∧
      (ISR s).decimalPointPos = s.decimalPointPos ∧ (ISR s).zeroBlanking = s.zeroBlanking ∧
      (ISR s).numDisplayedDigits = s.numDisplayedDigits ∧ (ISR s).ADCON0 = s.ADCON0 ∧
      (ISR s).ADRESH = s.ADRESH ∧ (ISR s).ADRESL = s.ADRESL ∧ (ISR s).port = s.port := by
  refine ⟨?_, ?_, ?_, ?_, ?_⟩
  · intro h
    have hn : ¬ (s.PIR1 &&& 0x01 ≠ 0) := fun c => c h
    simp only [ISR, hn, if_false]
  · intro h
    simp only [ISR, h, ne_eq, not_false_eq_true, if_true, TIMER1HIGHBYTE, TIMER1LOWBYTE]
  · rw [Nat.testBit_and]
    have : Nat.testBit 0xFE 0 = false := by decide
    rw [this]
    simp
  · intro i h0 h8
    rw [Nat.testBit_and]
    have : Nat.testBit 0xFE i = true := by
      interval_cases i <;> first | exact absurd rfl h0 | decide
    rw [this]
    simp
  · simp only [ISR]
    split_ifs <;> simp

theorem ISR_frame_witness :
    ISR { declaredState with PIR1 := 0x41 }
        = { ({ declaredState with PIR1 := 0x41 } : Pic) with
              PIR1 := ({ declaredState with PIR1 := 0x41 } : Pic).PIR1 &&& 0xFE,
              TMR1H := 0x20, TMR1L := 0xFF, timer1Flag := 1 } ∧
      ISR { declaredState with PIR1 := 0x40 } = { declaredState with PIR1 := 0x40 } :=
  ⟨(ISR_frame { declaredState with PIR1 := 0x41 }).2.1 (by decide),
   (ISR_frame { declaredState with PIR1 := 0x40 }).1 (by decide)⟩

/-! ## Cell ranges and index safety (claims C19, C20) -/

theorem decimalDigits4_le (n : Nat) : ∀ x ∈ decimalDigits4 n, x ≤ 9 := by
  intro x hx
  simp only [decimalDigits4, List.mem_cons, List.mem_singleton, List.not_mem_nil, or_false] at hx
  omega

/-- The cells stay decimal digits under `roundDigits`. -/
theorem roundDigits_le (d0 d1 d2 d3 : Nat) (h0 : d0 ≤ 9) (h1 : d1 ≤ 9) (h2 : d2 ≤ 9)
    (h3 : d3 ≤ 9) :
    (roundDigits [d0, d1, d2, d3]).length = 4 ∧ ∀ x ∈ roundDigits [d0, d1, d2, d3], x ≤ 9 := by
  by_cases h5 : d3 ≤ 5
  · rw [roundDigits_keep d0 d1 d2 d3 h0 h1 h2 h5]
    refine ⟨rfl, ?_⟩
    intro x hx
    simp only [List.mem_cons, List.mem_singleton, List.not_mem_nil, or_false] at hx
    omega
  · rw [roundDigits_carry d0 d1 d2 d3 h0 h1 h2 h3 (by omega)]
    exact ⟨rfl, decimalDigits4_le _⟩

/-- C19. Digit-cell invariant: for every 16-bit number and every prior
content of `tm1637Data`, after `getDigits` there are four cells, all in
[0, 9], and every cell more significant than the number's leading digit
(cell i of weight 10^(3-i) with number < 10^(3-i)) is 0; and `roundDigits`
applied to four cells in [0, 9] yields four cells in [0, 9]. -/
theorem digit_cells_invariant (v a b c d : Nat) (hv : v ≤ 65535) :
    (getDigits v [a, b, c, d]).2.length = 4 ∧
      (∀ x ∈ (getDigits v [a, b, c, d]).2, x ≤ 9) ∧
      (∀ i, i < 4 → v < 10 ^ (3 - i) → (getDigits v [a, b, c, d]).2.getD i 0 = 0) ∧
      (∀ d0 d1 d2 d3 : Nat, d0 ≤ 9 → d1 ≤ 9 → d2 ≤ 9 → d3 ≤ 9 →
        (roundDigits [d0, d1, d2, d3]).length = 4 ∧
        ∀ x ∈ roundDigits [d0, d1, d2, d3], x ≤ 9) := by
  have e : (getDigits v [a, b, c, d]).2 = decimalDigits4 v := getDigitsData_eq v a b c d
  rw [e]
  refine ⟨rfl, decimalDigits4_le v, ?_, roundDigits_le⟩
  intro i hi hlt
  simp only [decimalDigits4]
  interval_cases i
  · have : v < 1000 := by simpa using hlt
    simp
    omega
  · have : v < 100 := by simpa using hlt
    simp
    omega
  · have : v < 10 := by simpa using hlt
    simp
    omega
  · have : v < 1 := by simpa using hlt
    simp
    omega

theorem digit_cells_invariant_witness :
    65535 ≤ 65535 ∧ (getDigits 42 [9, 9, 9, 9]).2.getD 1 0 = 0 ∧
      (∀ x ∈ (getDigits 65535 [200, 0, 7, 1]).2, x ≤ 9) ∧
      (∀ x ∈ roundDigits [9, 9, 9, 9], x ≤ 9) :=
  ⟨by decide,
   (digit_cells_invariant 42 9 9 9 9 (by decide)).2.2.1 1 (by decide) (by decide),
   (digit_cells_invariant 65535 200 0 7 1 (by decide)).2.1,
   ((digit_cells_invariant 65535 200 0 7 1 (by decide)).2.2.2 9 9 9 9 (by decide) (by decide)
      (by decide) (by decide)).2⟩

/-- Once the pass-by-pass loop has stopped, its array is the one of
`getDigitsLoop`. -/
theorem getDigitsRun_data (n : Nat) (st : Nat × Int × List Nat)
    (h : (getDigitsRun n st).1 = 0) :
    (getDigitsRun n st).2.2 = getDigitsLoop st.1 st.2.1 st.2.2 := by
  induction n generalizing st with
  | zero =>
    simp only [getDigitsRun] at h ⊢
    rw [h, getDigitsLoop_zero]
  | succ n ih =>
    by_cases hp : st.1 > 0
    · simp only [getDigitsRun, hp, if_true] at h ⊢
      rw [ih _ h]
      by_cases hc : st.2.1 ≥ 0
      · rw [getDigitsLoop_pos st.1 st.2.1 st.2.2 hp hc]
        simp [getDigitsBody, hc]
      · rw [getDigitsLoop_neg st.1 st.2.1 st.2.2 (by omega)]
        simp [getDigitsBody, hc, getDigitsLoop_zero]
    · simp only [getDigitsRun, hp, if_false] at h ⊢
      have h0 : st.1 = 0 := by omega
      rw [h0, getDigitsLoop_zero]

theorem getDigitsRun_stopped (n : Nat) (st : Nat × Int × List Nat) (h : st.1 = 0) :
    getDigitsRun n st = st ∧ getDigitsWrites n st = [] := by
  cases n with
  | zero => exact ⟨rfl, rfl⟩
  | succ n => simp [getDigitsRun, getDigitsWrites, h]

theorem getDigitsRun_add (m k : Nat) (st : Nat × Int × List Nat) :
    getDigitsRun (m + k) st = getDigitsRun k (getDigitsRun m st) ∧
      getDigitsWrites (m + k) st
        = getDigitsWrites m st ++ getDigitsWrites k (getDigitsRun m st) := by
  induction m generalizing st with
  | zero => simp [getDigitsRun, getDigitsWrites]
  | succ m ih =>
    have e : m + 1 + k = (m + k) + 1 := by omega
    rw [e]
    by_cases hp : st.1 > 0
    · simp only [getDigitsRun, getDigitsWrites, hp, if_true, (ih _).1, (ih _).2,
        List.append_assoc, and_self]
    · have h0 : st.1 = 0 := by omega
      simp [getDigitsRun, getDigitsWrites, hp, (getDigitsRun_stopped k st h0).1,
        (getDigitsRun_stopped k st h0).2]

/-- The loop stops within `ctr + 2` passes. -/
theorem getDigitsRun_stops (n : Nat) (st : Nat × Int × List Nat) (h1 : 1 ≤ n)
    (h2 : st.2.1 + 2 ≤ (n : Int)) : (getDigitsRun n st).1 = 0 := by
  induction n generalizing st with
  | zero => omega
  | succ n ih =>
    by_cases hp : st.1 > 0
    · simp only [getDigitsRun, hp, if_true]
      by_cases hc : st.2.1 ≥ 0
      · have hb : getDigitsBody st
            = (st.1 / 10, st.2.1 - 1, st.2.2.set st.2.1.toNat ((st.1 % 10) % 256)) := by
          simp [getDigitsBody, hc]
        rw [hb]
        apply ih
        · omega
        · simp only []
          omega
      · have hb : getDigitsBody st = (0, st.2.1, st.2.2) := by
          simp [getDigitsBody, hc]
        rw [hb, (getDigitsRun_stopped n _ rfl).1]
    · simp only [getDigitsRun, hp, if_false]
      omega

/-- Every write index lies between 0 and the starting `ctr`. -/
theorem getDigitsWrites_le (n : Nat) (st : Nat × Int × List Nat) :
    ∀ i ∈ getDigitsWrites n st, 0 ≤ i ∧ i ≤ st.2.1 := by
  induction n generalizing st with
  | zero =>
    intro i hi
    simp [getDigitsWrites] at hi
  | succ n ih =>
    intro i hi
    by_cases hp : st.1 > 0
    · simp only [getDigitsWrites, hp, if_true, List.mem_append] at hi
      rcases hi with hi | hi
      · by_cases hc : st.2.1 ≥ 0
        · simp only [hc, if_true, List.mem_singleton] at hi
          omega
        · simp [hc] at hi
      · have h := ih _ i hi
        have hb : (getDigitsBody st).2.1 ≤ st.2.1 := by
          simp only [getDigitsBody]
          split_ifs
          · simp only []
            omega
          · exact le_refl _
        omega
    · simp [getDigitsWrites, hp] at hi

theorem lookupIndices_lt (s : Pic) (data : List Nat) (hl : data.length = 4)
    (h : ∀ x ∈ data, x ≤ 9) :
    ∀ i ∈ lookupIndices { s with tm1637Data := data }, i < tm1637DisplayNumtoSeg.length := by
  intro i hi
  simp only [lookupIndices, List.mem_map, List.mem_range, tm1637MaxDigits] at hi
  obtain ⟨ctr, hc, rfl⟩ := hi
  have hlt : ctr < data.length := by omega
  have hm : data.getD ctr 0 ∈ data := by
    rw [List.getD_eq_getElem data 0 hlt]
    exact List.getElem_mem hlt
  have := h _ hm
  simp only [tm1637DisplayNumtoSeg, List.length]
  omega

/-- C20. No out-of-bounds index in the digit pipeline: for every 16-bit
number and every prior array, the zeroing loop of `getDigits` writes indices
below 4; its `while` loop stops within five passes (and stays stopped), with
the array `getDigits` returns, and every write `tm1637Data[ctr]` in it has
0 ≤ ctr ≤ 3; and in a `tm1637UpdateDisplay` run after `getDigits`, with or
without `roundDigits` in between, every lookup
`tm1637DisplayNumtoSeg[tm1637Data[ctr]]` uses an index below 10, the size
of the table. -/
theorem digit_pipeline_index_safety (v a b c d : Nat) (hv : v ≤ 65535) :
    (∀ ctr2 ∈ List.range tm1637MaxDigits, ctr2 < [a, b, c, d].length) ∧
      (getDigitsRun 5 (v, (tm1637RightDigit : Int), [0, 0, 0, 0])).1 = 0 ∧
      (∀ n, 5 ≤ n →
        getDigitsRun n (v, (tm1637RightDigit : Int), [0, 0, 0, 0])
          = getDigitsRun 5 (v, (tm1637RightDigit : Int), [0, 0, 0, 0])) ∧
      (getDigitsRun 5 (v, (tm1637RightDigit : Int), [0, 0, 0, 0])).2.2
        = (getDigits v [a, b, c, d]).2 ∧
      (∀ n, ∀ i ∈ getDigitsWrites n (v, (tm1637RightDigit : Int), [0, 0, 0, 0]),
        0 ≤ i ∧ i ≤ 3) ∧
      tm1637DisplayNumtoSeg.length = 10 ∧
      (∀ s : Pic, ∀ i ∈ lookupIndices { s with tm1637Data := (getDigits v [a, b, c, d]).2 },
        i < tm1637DisplayNumtoSeg.length) ∧
      (∀ s : Pic,
        ∀ i ∈ lookupIndices { s with tm1637Data := roundDigits (getDigits v [a, b, c, d]).2 },
        i < tm1637DisplayNumtoSeg.length) := by
  have hR : (tm1637RightDigit : Int) = 3 := by decide
  have hx := getDigitsRun_stops 5 (v, 3, [0, 0, 0, 0]) (by omega) (by simp)
  have e : (getDigits v [a, b, c, d]).2 = decimalDigits4 v := getDigitsData_eq v a b c d
  have e0 : (getDigits v [a, b, c, d]).2 = getDigitsLoop v 3 [0, 0, 0, 0] := by
    have hr : List.range tm1637MaxDigits = [0, 1, 2, 3] := by decide
    simp only [getDigits, getDigitsData, hr, hR, List.foldl, List.set]
  rw [hR]
  refine ⟨?_, hx, ?_, ?_, ?_, rfl, ?_, ?_⟩
  · intro ctr2 h
    simp only [List.mem_range, tm1637MaxDigits] at h
    simpa using h
  · intro n hn
    obtain ⟨k, rfl⟩ : ∃ k, n = 5 + k := ⟨n - 5, by omega⟩
    rw [(getDigitsRun_add 5 k _).1, (getDigitsRun_stopped k _ hx).1]
  · rw [e0]
    exact getDigitsRun_data 5 _ hx
  · intro n i hi
    exact getDigitsWrites_le n _ i hi
  · intro s
    rw [e]
    exact lookupIndices_lt s _ rfl (decimalDigits4_le v)
  · intro s
    rw [e]
    have h := roundDigits_le (v / 1000 % 10) (v / 100 % 10) (v / 10 % 10) (v % 10)
      (by omega) (by omega) (by omega) (by omega)
    exact lookupIndices_lt s _ h.1 h.2

theorem digit_pipeline_index_safety_witness :
    65535 ≤ 65535 ∧
      (getDigitsRun 5 (65535, (tm1637RightDigit : Int), [0, 0, 0, 0])).1 = 0 ∧
      (∀ n, ∀ i ∈ getDigitsWrites n (65535, (tm1637RightDigit : Int), [0, 0, 0, 0]),
        0 ≤ i ∧ i ≤ 3) ∧
      (∀ s : Pic,
        ∀ i ∈ lookupIndices { s with tm1637Data := roundDigits (getDigits 65535 [9, 9, 9, 9]).2 },
        i < tm1637DisplayNumtoSeg.length) :=
  ⟨by decide,
   (digit_pipeline_index_safety 65535 9 9 9 9 (by decide)).2.1,
   (digit_pipeline_index_safety 65535 9 9 9 9 (by decide)).2.2.2.2.1,
   (digit_pipeline_index_safety 65535 9 9 9 9 (by decide)).2.2.2.2.2.2.2⟩

/-! ## Scheduler invariant (claim C21) -/

theorem caseConverting_ADCreadcounter (s : Pic) :
    (caseConverting s).ADCreadcounter = s.ADCreadcounter := by
  simp only [caseConverting]
  split_ifs <;> rfl

theorem caseConverting_ADCreadStatus (s : Pic) :
    (caseConverting s).ADCreadStatus = NOCONVERSION ∨
      (caseConverting s).ADCreadStatus = s.ADCreadStatus := by
  simp only [caseConverting]
  split_ifs
  · exact Or.inl rfl
  · exact Or.inr rfl

theorem passSwitch_ADCreadcounter (s : Pic) :
    (passSwitch s).ADCreadcounter = s.ADCreadcounter := by
  simp only [passSwitch]
  split_ifs
  · rfl
  · rfl
  · exact caseConverting_ADCreadcounter s
  · rfl

/-- The switch never leaves `ADCreadStatus` at STARTADCREAD, and from one of
the three states it ends in NOCONVERSION or CONVERTING. -/
theorem passSwitch_ADCreadStatus (s : Pic)
    (h : s.ADCreadStatus = NOCONVERSION ∨ s.ADCreadStatus = STARTADCREAD ∨
      s.ADCreadStatus = CONVERTING) :
    (passSwitch s).ADCreadStatus = NOCONVERSION ∨ (passSwitch s).ADCreadStatus = CONVERTING := by
  simp only [passSwitch]
  split_ifs with h0 h1 h2
  · exact Or.inl h0
  · exact Or.inr rfl
  · rcases caseConverting_ADCreadStatus s with e | e
    · exact Or.inl e
    · exact Or.inr (e.trans h2)
  · rcases h with e | e | e
    · exact absurd e h0
    · exact absurd e h1
    · exact absurd e h2

/-- One pass keeps the scheduler invariant, and its tick never wraps the
8-bit interval counter. -/
theorem mainLoopPass_invariant (s : Pic) (hc : s.ADCreadcounter ≤ 9)
    (hs : s.ADCreadStatus = NOCONVERSION ∨ s.ADCreadStatus = CONVERTING) :
    (passTick s).ADCreadcounter = s.ADCreadcounter + (if s.timer1Flag ≠ 0 then 1 else 0) ∧
      (mainLoopPass s).ADCreadcounter ≤ 9 ∧
      ((mainLoopPass s).ADCreadStatus = NOCONVERSION ∨
        (mainLoopPass s).ADCreadStatus = CONVERTING) := by
  have ht : (passTick s).ADCreadcounter
      = s.ADCreadcounter + (if s.timer1Flag ≠ 0 then 1 else 0) := by
    simp only [passTick]
    split_ifs
    · exact Nat.mod_eq_of_lt (by omega)
    · rfl
  have hts : (passTick s).ADCreadStatus = s.ADCreadStatus := by
    simp only [passTick]
    split_ifs <;> rfl
  have hic : (passInterval (passTick s)).ADCreadcounter ≤ 9 := by
    simp only [passInterval]
    split_ifs with h
    · exact Nat.zero_le 9
    · omega
  have his : (passInterval (passTick s)).ADCreadStatus = NOCONVERSION ∨
      (passInterval (passTick s)).ADCreadStatus = STARTADCREAD ∨
      (passInterval (passTick s)).ADCreadStatus = CONVERTING := by
    simp only [passInterval]
    split_ifs
    · exact Or.inr (Or.inl rfl)
    · rw [hts]
      rcases hs with e | e
      · exact Or.inl e
      · exact Or.inr (Or.inr e)
  refine ⟨ht, ?_, ?_⟩
  · rw [mainLoopPass_eq, passLed_ADCreadcounter, passSwitch_ADCreadcounter]
    exact hic
  · rw [mainLoopPass_eq, passLed_ADCreadStatus]
    exact passSwitch_ADCreadStatus _ his

theorem runPasses_invariant (xs : List Stimulus) (s : Pic) (hc : s.ADCreadcounter ≤ 9)
    (hs : s.ADCreadStatus = NOCONVERSION ∨ s.ADCreadStatus = CONVERTING) :
    (runPasses s xs).ADCreadcounter ≤ 9 ∧
      ((runPasses s xs).ADCreadStatus = NOCONVERSION ∨
        (runPasses s xs).ADCreadStatus = CONVERTING) := by
  induction xs generalizing s with
  | nil => exact ⟨hc, hs⟩
  | cons x xs ih =>
    have h := mainLoopPass_invariant (arrive x s) (by simpa using hc) (by simpa using hs)
    exact ih _ h.2.1 h.2.2

/-- C21. Scheduler invariant: from every state with `ADCreadcounter = 0`
and `ADCreadStatus = NOCONVERSION`, after every sequence of loop passes with
arbitrary tick flags and arbitrary ADC registers, `ADCreadcounter ≤ 9` and
`ADCreadStatus` is NOCONVERSION or CONVERTING, never STARTADCREAD; and in
the pass that follows, the counter after `ADCreadcounter ++` is the exact
sum, at most 10, so the 8-bit counter never wraps. -/
theorem scheduler_invariant (s0 : Pic) (hC : s0.ADCreadcounter = 0)
    (hS : s0.ADCreadStatus = NOCONVERSION) (xs : List Stimulus) :
    (runPasses s0 xs).ADCreadcounter ≤ 9 ∧
      ((runPasses s0 xs).ADCreadStatus = NOCONVERSION ∨
        (runPasses s0 xs).ADCreadStatus = CONVERTING) ∧
      (runPasses s0 xs).ADCreadStatus ≠ STARTADCREAD ∧
      (∀ x : Stimulus,
        (passTick (arrive x (runPasses s0 xs))).ADCreadcounter
          = (runPasses s0 xs).ADCreadcounter
            + (if (arrive x (runPasses s0 xs)).timer1Flag ≠ 0 then 1 else 0) ∧
        (passTick (arrive x (runPasses s0 xs))).ADCreadcounter ≤ 10) := by
  obtain ⟨hc, hs⟩ := runPasses_invariant xs s0 (by omega) (Or.inl hS)
  refine ⟨hc, hs, ?_, ?_⟩
  · rcases hs with e | e <;> rw [e] <;> decide
  · intro x
    have h := (mainLoopPass_invariant (arrive x (runPasses s0 xs)) (by simpa using hc)
      (by simpa using hs)).1
    rw [arrive_ADCreadcounter] at h
    refine ⟨h, ?_⟩
    rw [h]
    split_ifs <;> omega

theorem scheduler_invariant_witness :
    (runPasses declaredState (List.replicate 10 (quiet true) ++ [stuck true])).ADCreadcounter
        ≤ 9 ∧
      ((runPasses declaredState
          (List.replicate 10 (quiet true) ++ [stuck true])).ADCreadStatus = NOCONVERSION ∨
        (runPasses declaredState
          (List.replicate 10 (quiet true) ++ [stuck true])).ADCreadStatus = CONVERTING) ∧
      (runPasses declaredState
        (List.replicate 10 (quiet true) ++ [stuck true])).ADCreadStatus ≠ STARTADCREAD :=
  ⟨(scheduler_invariant declaredState rfl rfl
      (List.replicate 10 (quiet true) ++ [stuck true])).1,
   (scheduler_invariant declaredState rfl rfl
      (List.replicate 10 (quiet true) ++ [stuck true])).2.1,
   (scheduler_invariant declaredState rfl rfl
      (List.replicate 10 (quiet true) ++ [stuck true])).2.2.1⟩

/-! ## Displayed value (claim C22) -/

/-- The cells after `getDigits` and `roundDigits` for a value below 10000:
the value rounded to the ten, half-way cases (last digit 5) rounded down. -/
theorem roundDigits_getDigits (r a b c d : Nat) (hr : r ≤ 9989) :
    roundDigits (getDigitsData r [a, b, c, d])
      = [10 * ((r + 4) / 10) / 1000 % 10, 10 * ((r + 4) / 10) / 100 % 10,
         10 * ((r + 4) / 10) / 10 % 10, 0] := by
  rw [getDigitsData_eq]
  simp only [decimalDigits4]
  by_cases h5 : r % 10 ≤ 5
  · rw [roundDigits_keep _ _ _ _ (by omega) (by omega) (by omega) h5]
    congr 1
    · omega
    · congr 1
      · omega
      · congr 1
        omega
  · rw [roundDigits_carry _ _ _ _ (by omega) (by omega) (by omega) (by omega) (by omega)]
    simp only [decimalDigits4]
    congr 1
    · omega
    · congr 1
      · omega
      · congr 1
        · omega
        · congr 1
          omega

theorem tm1637UpdateDisplay_tm1637Data (s : Pic) :
    (tm1637UpdateDisplay s).tm1637Data = s.tm1637Data := rfl

/-- The bytes written in the configuration `main` runs with. -/
theorem shipped_bytes (s : Pic) (d0 d1 d2 d3 : Nat) (hd : s.tm1637Data = [d0, d1, d2, d3])
    (hz : s.zeroBlanking = 0) (hp : s.decimalPointPos = 0) (hn : s.numDisplayedDigits = 3) :
    segmentBytes s = [(segOf d0 ||| 0x80) % 256, segOf d1, segOf d2, 0x00] := by
  rw [segmentBytes_eq]
  simp [tm1637DigitSegs, hd, hz, hp, hn, segOf]

/-- C22. Displayed-value accuracy in the shipped configuration: for every
raw code c in [0, 1023], the completion step leaves the cells of
V' = 10 * floor((readADC(c) + 4) / 10): the rightmost cell is 0, the decimal
value of the cells is V' itself (V' ≤ 5000, no carry is lost), the bytes
written show the three leading digits of V' with the decimal point on the
first and a blank fourth digit, and |1024*V' - 5000*c| ≤ 5632. -/
theorem displayed_value_accuracy (s : Pic) (c a b e d : Nat) (hc : c ≤ 1023)
    (hH : s.ADRESH = c / 256) (hL : s.ADRESL = c % 256) (hD : s.tm1637Data = [a, b, e, d])
    (hP : s.ADCON0 &&& 0x20 = 0) (hz : s.zeroBlanking = 0) (hp : s.decimalPointPos = 0)
    (hn : s.numDisplayedDigits = 3) :
    (caseConverting s).tm1637Data
        = [10 * ((readADC s + 4) / 10) / 1000 % 10, 10 * ((readADC s + 4) / 10) / 100 % 10,
           10 * ((readADC s + 4) / 10) / 10 % 10, 0] ∧
      cellsValue (caseConverting s).tm1637Data = 10 * ((readADC s + 4) / 10) ∧
      10 * ((readADC s + 4) / 10) ≤ 5000 ∧
      |1024 * ((10 * ((readADC s + 4) / 10) : Nat) : Int) - 5000 * (c : Int)| ≤ 5632 ∧
      completionSegmentBytes s
        = [(segOf (10 * ((readADC s + 4) / 10) / 1000 % 10) ||| 0x80) % 256,
           segOf (10 * ((readADC s + 4) / 10) / 100 % 10),
           segOf (10 * ((readADC s + 4) / 10) / 10 % 10), 0x00] := by
  have hr := readADC_eq s c hc hH hL
  have hr1 : 1024 * readADC s ≤ 5000 * c + 512 := by
    rw [hr]
    split_ifs <;> omega
  have hr2 : 5000 * c ≤ 1024 * readADC s + 512 := by
    rw [hr]
    split_ifs <;> omega
  have hle : readADC s ≤ 4996 := by omega
  have hcells := roundDigits_getDigits (readADC s) a b e d (by omega)
  have hdata : (caseConverting s).tm1637Data
      = roundDigits (getDigitsData (readADC s) [a, b, e, d]) := by
    simp [caseConverting, hP, getDigits, hD, tm1637UpdateDisplay_tm1637Data]
  have hbytes : completionSegmentBytes s
      = [(segOf (10 * ((readADC s + 4) / 10) / 1000 % 10) ||| 0x80) % 256,
         segOf (10 * ((readADC s + 4) / 10) / 100 % 10),
         segOf (10 * ((readADC s + 4) / 10) / 10 % 10), 0x00] := by
    rw [completionSegmentBytes_eq s hP, hD]
    exact shipped_bytes _ _ _ _ _ hcells hz hp hn
  have hV0 : 10 * ((readADC s + 4) / 10) % 10 = 0 := by omega
  have hV1 : 10 * ((readADC s + 4) / 10) ≤ 5000 := by omega
  have hV2 : 10 * ((readADC s + 4) / 10) ≤ readADC s + 4 := by omega
  have hV3 : readADC s ≤ 10 * ((readADC s + 4) / 10) + 5 := by omega
  refine ⟨by rw [hdata, hcells], ?_, hV1, ?_, hbytes⟩
  · rw [hdata, hcells]
    simp only [cellsValue, List.getD_cons_zero, List.getD_cons_succ]
    generalize 10 * ((readADC s + 4) / 10) = V at hV0 hV1
    omega
  · rw [abs_le]
    generalize 10 * ((readADC s + 4) / 10) = V at hV0 hV1 hV2 hV3
    generalize readADC s = r at hr1 hr2 hle hV2 hV3
    constructor <;> omega

theorem displayed_value_accuracy_witness :
    1023 ≤ 1023 ∧ readADC (shippedState 1023) = 4995 ∧
      (caseConverting (shippedState 1023)).tm1637Data = [4, 9, 9, 0] ∧
      cellsValue (caseConverting (shippedState 1023)).tm1637Data = 4990 ∧
      completionSegmentBytes (shippedState 1023) = [0xE6, 0x6F, 0x6F, 0x00] :=
  ⟨by decide, by decide,
   (displayed_value_accuracy (shippedState 1023) 1023 0 0 0 0 (by decide) (by decide)
      (by decide) rfl (by decide) rfl rfl rfl).1.trans (by decide),
   (displayed_value_accuracy (shippedState 1023) 1023 0 0 0 0 (by decide) (by decide)
      (by decide) rfl (by decide) rfl rfl rfl).2.1.trans (by decide),
   (displayed_value_accuracy (shippedState 1023) 1023 0 0 0 0 (by decide) (by decide)
      (by decide) rfl (by decide) rfl rfl rfl).2.2.2.2.trans (by decide)⟩

end TM1637ADC
